import Mathlib

/-!
Verification of the entity model and file-backed store of the
ghcp-memory-context repository.

The development shallowly embeds the Go source:

* the model layer (internal/models/entity.go) becomes plain Lean
  structures and functions in the namespace "models";
* the file-backed store (internal/storage/filestore) becomes explicit
  state passing over a "FileStore" record in the namespace "filestore";
  the Go heap of pointers to entities is modelled as a function from
  addresses to entities so that pointer aliasing between the cache and
  callers is expressible;
* the per-file reader/writer lock discipline becomes a small transition
  system in the namespace "lockmodel".

Timestamps (Go time.Time) are modelled as natural numbers, with 0 as the
zero value (time.Time.IsZero).  The RFC3339 string rendering used by
encoding/json is injective on the modelled times, so the JSON tree keeps
the timestamp itself as the payload of a dedicated leaf constructor.
Go slices are modelled as Lean lists (a nil slice and an empty slice are
identified).  Strings are compared byte-wise in Go; on valid UTF-8 this
agrees with the character-wise lexicographic order used here.
-/

namespace models

/-- Timestamps: time.Time as nanoseconds since the epoch; 0 is the zero value. -/
abbrev Time := Nat

/-- Case-insensitive lowering of one character, as done character-wise by
strings.ToLower (restricted to the ASCII case mapping). -/
def lowerChar (c : Char) : Char := c.toLower

/-- Decidable check that a character is a hexadecimal digit. -/
def isHexDigit (c : Char) : Bool :=
  c.isDigit || (('a' ≤ c) && (c ≤ 'f')) || (('A' ≤ c) && (c ≤ 'F'))

/-- Shape check for the validator v10 "uuid" tag: 8-4-4-4-12 hexadecimal
digits separated by dashes. -/
def isUUID (s : String) : Bool :=
  let cs := s.toList
  cs.length == 36 &&
    (List.range 36).all (fun i =>
      if i == 8 || i == 13 || i == 18 || i == 23 then cs.getD i ' ' == '-'
      else isHexDigit (cs.getD i ' '))

/-- Observation (internal/models/entity.go): an atomic fact about an entity. -/
structure Observation where
  ID : String
  Text : String
  CreatedAt : Time
  Source : String
deriving DecidableEq, Repr

/-- Entity (internal/models/entity.go): a named container of observations. -/
structure Entity where
  Name : String
  EntityType : String
  Observations : List Observation
  CreatedAt : Time
  LastModified : Time
deriving DecidableEq, Repr

/-- Checks performed by validate.Struct on an Observation: the field tags
require ID to be a UUID, Text to have 1 to 1000 characters and Source to
have 1 to 100 characters (validator counts runes, i.e. characters). -/
def Observation.structValid (o : Observation) : Bool :=
  isUUID o.ID && (1 ≤ o.Text.length && o.Text.length ≤ 1000) &&
    (1 ≤ o.Source.length && o.Source.length ≤ 100)

/-- Checks performed by validate.Struct on an Entity: Name must have 1 to
200 characters and EntityType 1 to 100 characters.  The Observations field
carries no validate tag, so validate.Struct does not look at it. -/
def Entity.structValid (e : Entity) : Bool :=
  (1 ≤ e.Name.length && e.Name.length ≤ 200) &&
    (1 ≤ e.EntityType.length && e.EntityType.length ≤ 100)

/-- Observation.Validate: fills an empty ID with a freshly generated UUID,
a zero CreatedAt with the current time and an empty Source with the
sentinel "user_input", then runs validate.Struct.  The fresh UUID and the
current time are passed in explicitly. -/
def Observation.Validate (now : Time) (freshID : String) (o : Observation) :
    Except String Observation :=
  let o1 := { o with ID := if o.ID = "" then freshID else o.ID }
  let o2 := { o1 with CreatedAt := if o1.CreatedAt = 0 then now else o1.CreatedAt }
  let o3 := { o2 with Source := if o2.Source = "" then "user_input" else o2.Source }
  if o3.structValid then .ok o3 else .error "observation validation failed"

/-- The loop over e.Observations inside Entity.Validate: each observation is
validated (and default-populated) in order; the first error aborts.  The
UUID generator is indexed by the position of the observation. -/
def validateObsList (now : Time) (gen : Nat → String) :
    Nat → List Observation → Except String (List Observation)
  | _, [] => .ok []
  | i, o :: rest =>
    match o.Validate now (gen i) with
    | .error msg => .error msg
    | .ok o2 =>
      match validateObsList now gen (i + 1) rest with
      | .error msg => .error msg
      | .ok rest2 => .ok (o2 :: rest2)

/-- Entity.Validate: fills zero timestamps with the current time, validates
every observation in order, then runs validate.Struct on the entity.  Go
mutates the entity in place; here the populated entity is returned. -/
def Entity.Validate (now : Time) (gen : Nat → String) (e : Entity) :
    Except String Entity :=
  let e1 := { e with
    CreatedAt := if e.CreatedAt = 0 then now else e.CreatedAt,
    LastModified := if e.LastModified = 0 then now else e.LastModified }
  match validateObsList now gen 0 e1.Observations with
  | .error msg => .error msg
  | .ok obs2 =>
    let e2 := { e1 with Observations := obs2 }
    if e2.structValid then .ok e2 else .error "entity validation failed"

/-- NewObservation: a fresh observation with the given text, a generated
UUID, the current time and the default source. -/
def NewObservation (id : String) (now : Time) (text : String) : Observation :=
  { ID := id, Text := text, CreatedAt := now, Source := "user_input" }

/-- NewEntity: a fresh entity with no observations and both timestamps set
to the current time. -/
def NewEntity (name entityType : String) (now : Time) : Entity :=
  { Name := name, EntityType := entityType, Observations := [],
    CreatedAt := now, LastModified := now }

/-- Entity.AddObservation: appends a fresh observation and updates
LastModified. -/
def Entity.AddObservation (id : String) (now : Time) (text : String)
    (e : Entity) : Entity :=
  { e with Observations := e.Observations ++ [NewObservation id now text],
           LastModified := now }

/-- The scan inside Entity.RemoveObservation: removes the first observation
with the given ID, if any. -/
def removeFirst (obsID : String) : List Observation → Option (List Observation)
  | [] => none
  | o :: rest =>
    if o.ID = obsID then some rest
    else
      match removeFirst obsID rest with
      | some rest2 => some (o :: rest2)
      | none => none

/-- Entity.RemoveObservation: removes the first observation with matching
ID and updates LastModified, returning whether one was found. -/
def Entity.RemoveObservation (now : Time) (obsID : String) (e : Entity) :
    Entity × Bool :=
  match removeFirst obsID e.Observations with
  | some obs2 => ({ e with Observations := obs2, LastModified := now }, true)
  | none => (e, false)

/-- Abstract syntax of JSON documents, the codomain of encoding/json.
A time.Time is rendered by encoding/json as an RFC3339 string; that
rendering is injective on the modelled times, so the tree keeps the
timestamp itself as the payload of the time leaf. -/
inductive Json where
  | null
  | boolean (b : Bool)
  | num (n : Int)
  | str (s : String)
  | time (t : Time)
  | arr (elems : List Json)
  | obj (fields : List (String × Json))

/-- Field access as performed by json.Unmarshal on an object: with
duplicate keys the last occurrence wins. -/
def lookupField (fields : List (String × Json)) (k : String) : Option Json :=
  fields.foldl (fun acc kv => if kv.1 = k then some kv.2 else acc) none

/-- Decoding a JSON value into a Go string field: an absent field or a
JSON null leaves the zero value; a non-string value is a type error. -/
def decodeStr : Option Json → Except String String
  | none => .ok ""
  | some .null => .ok ""
  | some (.str s) => .ok s
  | some _ => .error "cannot unmarshal into string field"

/-- Decoding a JSON value into a Go time.Time field: an absent field or a
JSON null leaves the zero value; anything but an RFC3339 string is an
error. -/
def decodeTime : Option Json → Except String Time
  | none => .ok 0
  | some .null => .ok 0
  | some (.time t) => .ok t
  | some _ => .error "cannot unmarshal into time field"

/-- Observation.ToJSON via json.Marshal: fields in declaration order. -/
def Observation.ToJSON (o : Observation) : Json :=
  .obj [("id", .str o.ID), ("text", .str o.Text),
        ("createdAt", .time o.CreatedAt), ("source", .str o.Source)]

/-- Decoding one element of the observations array: JSON null leaves the
zero Observation; a non-object is a type error. -/
def Observation.FromJSON : Json → Except String Observation
  | .null => .ok { ID := "", Text := "", CreatedAt := 0, Source := "" }
  | .obj fields =>
    match decodeStr (lookupField fields "id") with
    | .error msg => .error msg
    | .ok id =>
      match decodeStr (lookupField fields "text") with
      | .error msg => .error msg
      | .ok text =>
        match decodeTime (lookupField fields "createdAt") with
        | .error msg => .error msg
        | .ok created =>
          match decodeStr (lookupField fields "source") with
          | .error msg => .error msg
          | .ok source =>
            .ok { ID := id, Text := text, CreatedAt := created, Source := source }
  | _ => .error "cannot unmarshal into Observation"

/-- Elementwise decoding of the observations array, aborting on the first
bad element as json.Unmarshal does. -/
def decodeObsElems : List Json → Except String (List Observation)
  | [] => .ok []
  | j :: rest =>
    match Observation.FromJSON j with
    | .error msg => .error msg
    | .ok o =>
      match decodeObsElems rest with
      | .error msg => .error msg
      | .ok os => .ok (o :: os)

/-- Decoding a JSON value into the Observations slice: an absent field or
a JSON null leaves the nil slice; a non-array value is a type error. -/
def decodeObsList : Option Json → Except String (List Observation)
  | none => .ok []
  | some .null => .ok []
  | some (.arr xs) => decodeObsElems xs
  | some _ => .error "cannot unmarshal into observations slice"

/-- Entity.ToJSON via json.Marshal: fields in declaration order; a nil or
empty observations slice is encoded as an array (the nil and empty slices
are identified by the list model). -/
def Entity.ToJSON (e : Entity) : Json :=
  .obj [("name", .str e.Name), ("entityType", .str e.EntityType),
        ("observations", .arr (e.Observations.map Observation.ToJSON)),
        ("createdAt", .time e.CreatedAt), ("lastModified", .time e.LastModified)]

/-- Entity.FromJSON via json.Unmarshal into a zero Entity: missing fields
keep their zero values, a top-level JSON null is a no-op, and any type
mismatch is an error. -/
def Entity.FromJSON : Json → Except String Entity
  | .null => .ok { Name := "", EntityType := "", Observations := [],
                   CreatedAt := 0, LastModified := 0 }
  | .obj fields =>
    match decodeStr (lookupField fields "name") with
    | .error msg => .error msg
    | .ok name =>
      match decodeStr (lookupField fields "entityType") with
      | .error msg => .error msg
      | .ok ty =>
        match decodeObsList (lookupField fields "observations") with
        | .error msg => .error msg
        | .ok obs =>
          match decodeTime (lookupField fields "createdAt") with
          | .error msg => .error msg
          | .ok created =>
            match decodeTime (lookupField fields "lastModified") with
            | .error msg => .error msg
            | .ok modified =>
              .ok { Name := name, EntityType := ty, Observations := obs,
                    CreatedAt := created, LastModified := modified }
  | _ => .error "cannot unmarshal into Entity"

/-- Substring test on character lists, as performed byte-wise by
strings.Contains (on valid UTF-8 the two agree). -/
def listContains : List Char → List Char → Bool
  | _, [] => true
  | [], _ :: _ => false
  | c :: rest, p :: ps =>
    if (p :: ps).isPrefixOf (c :: rest) then true else listContains rest (p :: ps)

/-- Case-insensitive containment helper (entity.go contains): lowers both
strings and checks substring containment. -/
def strContains (text searchText : String) : Bool :=
  listContains (text.toList.map lowerChar) (searchText.toList.map lowerChar)

/-- Entity.SearchObservations: the loop appends, in order, every
observation whose text contains the query case-insensitively. -/
def Entity.SearchObservations (e : Entity) (searchText : String) :
    List Observation :=
  e.Observations.foldl
    (fun acc o => if strContains o.Text searchText then acc ++ [o] else acc) []

end models

namespace filestore

open models

/-- Lexicographic strict order on character lists; on valid UTF-8 this is
exactly the byte-wise comparison Go uses on strings. -/
def lexLt : List Char → List Char → Bool
  | [], [] => false
  | [], _ :: _ => true
  | _ :: _, [] => false
  | a :: as, b :: bs => if a < b then true else if b < a then false else lexLt as bs

/-- Byte-wise (here: character-wise) order on strings, the order in which
os.ReadDir returns directory entries. -/
def strLe (a b : String) : Prop := lexLt b.toList a.toList = false

instance : DecidableRel strLe := fun a b => by
  unfold strLe; infer_instance

/-- Suffix test on strings (strings.HasSuffix). -/
def hasSuffix (s suffix : String) : Bool :=
  suffix.toList.isSuffixOf s.toList

/-- Suffix removal on strings (strings.TrimSuffix). -/
def trimSuffix (s suffix : String) : String :=
  if hasSuffix s suffix then ⟨s.toList.take (s.toList.length - suffix.toList.length)⟩
  else s

/-- One entry of the entities directory: a file whose bytes parse as the
given JSON document, a file whose bytes are not valid JSON, or a
subdirectory. -/
inductive FsNode where
  | file (j : Json)
  | corrupt
  | dir

/-- Whether a directory entry is a subdirectory (os.DirEntry.IsDir). -/
def FsNode.isDir : FsNode → Bool
  | .dir => true
  | _ => false

/-- First-match lookup of a file name in the directory listing; store
operations keep the key set duplicate-free. -/
def findFile : List (String × FsNode) → String → Option FsNode
  | [], _ => none
  | (k, v) :: rest, fn => if k = fn then some v else findFile rest fn

/-- os.WriteFile: replaces the contents of an existing file, or creates
the file (appended to the directory) when absent. -/
def writeFile : List (String × FsNode) → String → FsNode → List (String × FsNode)
  | [], fn, nd => [(fn, nd)]
  | (k, v) :: rest, fn, nd =>
    if k = fn then (fn, nd) :: rest else (k, v) :: writeFile rest fn nd

/-- os.Remove: deletes the entry with the given name, if present. -/
def removeFile : List (String × FsNode) → String → List (String × FsNode)
  | [], _ => []
  | (k, v) :: rest, fn => if k = fn then rest else (k, v) :: removeFile rest fn

/-- Error taxonomy of the store, one constructor per distinguishable error
message produced by the filestore methods. -/
inductive StoreError where
  /-- entity validation failed: ... -/
  | validationFailed (msg : String)
  /-- entity already exists -/
  | alreadyExists (name : String)
  /-- entity not found -/
  | notFound (name : String)
  /-- failed to unmarshal entity: ... -/
  | decodeFailed
  /-- failed to read entity file: ... (an I/O error other than absence) -/
  | ioError
deriving DecidableEq, Repr

/-- FileStore (filestore.go).  The Go heap of pointers to models.Entity is
modelled as a total function from addresses to entities together with an
allocation bound; entityCache maps an entity name to the address of the
cached entity, exactly as the Go map holds the pointer itself.  The
entities directory maps file names to their contents. -/
structure FileStore where
  heap : Nat → Entity
  nextAddr : Nat
  entitiesDir : List (String × FsNode)
  entityCache : String → Option Nat

/-- NewFileStore followed by Initialize on an empty base directory: no
entity files and an empty cache.  The initial heap is arbitrary. -/
def FileStore.init (heap0 : Nat → Entity) : FileStore :=
  { heap := heap0, nextAddr := 0, entitiesDir := [], entityCache := fun _ => none }

/-- Allocation of a fresh models.Entity by a caller of the store (the Go
new or composite literal): writes the value at the next free address. -/
def FileStore.alloc (s : FileStore) (e : Entity) : FileStore × Nat :=
  ({ s with heap := Function.update s.heap s.nextAddr e, nextAddr := s.nextAddr + 1 },
   s.nextAddr)

/-- getEntityFilePath: the entity name is used verbatim as the file stem. -/
def getEntityFilePath (name : String) : String := name ++ ".json"

/-- FileStore.EntityExists: a direct stat on the entity file path; any
entry (even a subdirectory) counts as existing. -/
def FileStore.EntityExists (s : FileStore) (name : String) : Bool :=
  (findFile s.entitiesDir (getEntityFilePath name)).isSome

/-- FileStore.saveEntityFile: marshals the entity and overwrites its file
in one atomic model step (the lock discipline making this atomic is
verified separately in the lockmodel namespace).  Writing over an existing
subdirectory fails with an I/O error. -/
def FileStore.saveEntityFile (s : FileStore) (e : Entity) :
    Except StoreError FileStore :=
  match findFile s.entitiesDir (getEntityFilePath e.Name) with
  | some .dir => .error .ioError
  | _ => .ok { s with
      entitiesDir := writeFile s.entitiesDir (getEntityFilePath e.Name)
                       (.file e.ToJSON) }

/-- FileStore.loadEntityFile: reads and unmarshals the entity file; an
absent file is NotFound, unreadable bytes or a non-Entity document is a
decode failure, and reading a subdirectory is an I/O error. -/
def FileStore.loadEntityFile (s : FileStore) (name : String) :
    Except StoreError Entity :=
  match findFile s.entitiesDir (getEntityFilePath name) with
  | none => .error (.notFound name)
  | some .dir => .error .ioError
  | some .corrupt => .error .decodeFailed
  | some (.file j) =>
    match Entity.FromJSON j with
    | .error _ => .error .decodeFailed
    | .ok e => .ok e

/-- FileStore.CreateEntity: validates the entity behind the caller's
pointer (mutating it in place), fails if a file for the name already
exists, otherwise writes the file and caches the caller's pointer.  The
result pairs the new store state with the returned error, if any. -/
def FileStore.CreateEntity (now : Time) (gen : Nat → String) (s : FileStore)
    (a : Nat) : FileStore × Option StoreError :=
  match (s.heap a).Validate now gen with
  | .error msg => (s, some (.validationFailed msg))
  | .ok e =>
    let s1 : FileStore := { s with heap := Function.update s.heap a e }
    if s1.EntityExists e.Name then (s1, some (.alreadyExists e.Name))
    else
      match s1.saveEntityFile e with
      | .error err => (s1, some err)
      | .ok s2 =>
        ({ s2 with entityCache := Function.update s2.entityCache e.Name (some a) },
         none)

/-- FileStore.GetEntity: a cache hit returns the cached pointer directly;
on a miss the file is loaded, a fresh entity is allocated and its address
is cached and returned. -/
def FileStore.GetEntity (s : FileStore) (name : String) :
    FileStore × Except StoreError Nat :=
  match s.entityCache name with
  | some a => (s, .ok a)
  | none =>
    match s.loadEntityFile name with
    | .error err => (s, .error err)
    | .ok e =>
      ({ s with heap := Function.update s.heap s.nextAddr e,
                nextAddr := s.nextAddr + 1,
                entityCache := Function.update s.entityCache name (some s.nextAddr) },
       .ok s.nextAddr)

/-- Value returned by FileStore.GetEntity: the entity behind the returned
pointer, read in the state the call leaves behind. -/
def FileStore.GetEntityVal (s : FileStore) (name : String) :
    Except StoreError Entity :=
  match s.GetEntity name with
  | (s2, .ok a) => .ok (s2.heap a)
  | (_, .error err) => .error err

/-- FileStore.UpdateEntity: validates, fails NotFound when no file for the
name exists, otherwise overwrites the whole file and replaces the cache
entry with the caller's pointer. -/
def FileStore.UpdateEntity (now : Time) (gen : Nat → String) (s : FileStore)
    (a : Nat) : FileStore × Option StoreError :=
  match (s.heap a).Validate now gen with
  | .error msg => (s, some (.validationFailed msg))
  | .ok e =>
    let s1 : FileStore := { s with heap := Function.update s.heap a e }
    if s1.EntityExists e.Name then
      match s1.saveEntityFile e with
      | .error err => (s1, some err)
      | .ok s2 =>
        ({ s2 with entityCache := Function.update s2.entityCache e.Name (some a) },
         none)
    else (s1, some (.notFound e.Name))

/-- FileStore.DeleteEntity: removes the file (absence is success) and
evicts the cache entry. -/
def FileStore.DeleteEntity (s : FileStore) (name : String) : FileStore :=
  { s with entitiesDir := removeFile s.entitiesDir (getEntityFilePath name),
           entityCache := Function.update s.entityCache name none }

/-- FileStore.ClearCache: empties the entity cache. -/
def FileStore.ClearCache (s : FileStore) : FileStore :=
  { s with entityCache := fun _ => none }

/-- os.ReadDir: the directory entries sorted by file name (byte-wise). -/
def FileStore.ReadDir (s : FileStore) : List (String × FsNode) :=
  List.insertionSort (fun x y => strLe x.1 y.1) s.entitiesDir

/-- The loop body of FileStore.ListEntities: subdirectories and entries
not ending in .json are skipped, each remaining stem is loaded through
GetEntity (errors are skipped silently) and the type filter is applied. -/
def listLoop (entityType : String) :
    List (String × FsNode) → FileStore → List Nat → FileStore × List Nat
  | [], s, acc => (s, acc)
  | (fn, nd) :: rest, s, acc =>
    if nd.isDir then listLoop entityType rest s acc
    else if hasSuffix fn ".json" then
      match s.GetEntity (trimSuffix fn ".json") with
      | (s2, .error _) => listLoop entityType rest s2 acc
      | (s2, .ok a) =>
        if entityType = "" || (s2.heap a).EntityType = entityType then
          listLoop entityType rest s2 (acc ++ [a])
        else listLoop entityType rest s2 acc
    else listLoop entityType rest s acc

/-- FileStore.ListEntities: enumerates the directory in sorted order and
runs the loop. -/
def FileStore.ListEntities (s : FileStore) (entityType : String) :
    FileStore × List Nat :=
  listLoop entityType s.ReadDir s []

/-- Values of the entity pointers returned by ListEntities, read in the
state the call leaves behind. -/
def FileStore.ListEntitiesVals (s : FileStore) (entityType : String) :
    List Entity :=
  ((s.ListEntities entityType).2).map (s.ListEntities entityType).1.heap

/-- SearchResult (internal/storage/interface.go). -/
structure SearchResult where
  EntityName : String
  EntityType : String
  Observation : Observation
deriving DecidableEq, Repr

/-- FileStore.SearchObservations: lists the entities (with the type
filter), searches each in order and appends the per-entity results. -/
def FileStore.SearchObservations (s : FileStore) (query entityType : String) :
    FileStore × List SearchResult :=
  let r := s.ListEntities entityType
  (r.1,
   r.2.foldl
     (fun acc a =>
       acc ++ ((r.1.heap a).SearchObservations query).map
         (fun o => { EntityName := (r.1.heap a).Name,
                     EntityType := (r.1.heap a).EntityType,
                     Observation := o }))
     [])

/-- Well-formedness tying the cache to the allocator: every cached address
has been allocated.  Initialization establishes it and every store
operation preserves it. -/
def FileStore.WF (s : FileStore) : Prop :=
  ∀ n a, s.entityCache n = some a → a < s.nextAddr

end filestore

namespace lockmodel

/-!
Transition-system model of the per-file lock discipline of
FileStore.saveEntityFile and FileStore.loadEntityFile: getFileLock returns
the one sync.RWMutex associated with the file path, saveEntityFile runs
os.WriteFile under its write lock and loadEntityFile runs os.ReadFile
under its read lock.  os.WriteFile is not atomic at the OS level: it
truncates and then writes, so mid-write the file holds a torn byte
sequence that does not parse as JSON.  Each of the n writers performs one
locked whole-file write (an UpdateEntity), each of the m readers performs
one locked read (a GetEntity cache miss); the readers record what they
read.
-/

/-- Bytes of the entity file: either a complete marshalled JSON document
(abstracted by the number of the write that produced it) or a torn
mid-write state that does not parse. -/
inductive FileBytes where
  | whole (v : Nat)
  | torn
deriving DecidableEq, Repr

/-- State of the sync.RWMutex: free, held by the given set of readers, or
held by one writer.  The holder set is ghost information refining the
reader counter of the Go mutex. -/
inductive LockState (m : Nat) where
  | free
  | readers (hs : Finset (Fin m))
  | writer
deriving DecidableEq

/-- Program counter of a writer: before Lock, holding the lock before the
write, mid-write (file truncated or partially written), after the write,
after Unlock. -/
inductive WriterPc where
  | idle | locked | midWrite | wrote | done
deriving DecidableEq, Repr

/-- Program counter of a reader, carrying what it observed. -/
inductive ReaderPc where
  | idle
  | locked
  | readDone (obs : FileBytes)
  | done (obs : FileBytes)
deriving DecidableEq, Repr

/-- Whether a writer currently holds the write lock. -/
def WriterPc.holds : WriterPc → Bool
  | .locked | .midWrite | .wrote => true
  | _ => false

/-- Whether a reader currently holds the read lock. -/
def ReaderPc.holds : ReaderPc → Bool
  | .locked | .readDone _ => true
  | _ => false

/-- The observation a reader has recorded, if any. -/
def ReaderPc.observed : ReaderPc → Option FileBytes
  | .readDone obs => some obs
  | .done obs => some obs
  | _ => none

/-- Global configuration: the lock, the file bytes and every thread. -/
structure Config (n m : Nat) where
  lock : LockState m
  file : FileBytes
  writers : Fin n → WriterPc
  readers : Fin m → ReaderPc

/-- Initial configuration: lock free, a complete document on disk, every
thread at its start. -/
def Config.init (n m : Nat) (v0 : Nat) : Config n m :=
  { lock := .free, file := .whole v0,
    writers := fun _ => .idle, readers := fun _ => .idle }

/-- Interleaving semantics: one thread moves per step.  Lock and RLock
block according to the sync.RWMutex contract; Unlock and RUnlock always
proceed for a holder. -/
inductive Step {n m : Nat} : Config n m → Config n m → Prop where
  | wLock (c : Config n m) (i : Fin n) :
      c.writers i = .idle → c.lock = .free →
      Step c { c with lock := .writer,
                      writers := Function.update c.writers i .locked }
  | wBegin (c : Config n m) (i : Fin n) :
      c.writers i = .locked →
      Step c { c with file := .torn,
                      writers := Function.update c.writers i .midWrite }
  | wFinish (c : Config n m) (i : Fin n) (v : Nat) :
      c.writers i = .midWrite →
      Step c { c with file := .whole v,
                      writers := Function.update c.writers i .wrote }
  | wUnlock (c : Config n m) (i : Fin n) :
      c.writers i = .wrote →
      Step c { c with lock := .free,
                      writers := Function.update c.writers i .done }
  | rLockFree (c : Config n m) (j : Fin m) :
      c.readers j = .idle → c.lock = .free →
      Step c { c with lock := .readers {j},
                      readers := Function.update c.readers j .locked }
  | rLockShared (c : Config n m) (j : Fin m) (hs : Finset (Fin m)) :
      c.readers j = .idle → c.lock = .readers hs →
      Step c { c with lock := .readers (insert j hs),
                      readers := Function.update c.readers j .locked }
  | rRead (c : Config n m) (j : Fin m) :
      c.readers j = .locked →
      Step c { c with readers := Function.update c.readers j (.readDone c.file) }
  | rUnlock (c : Config n m) (j : Fin m) (hs : Finset (Fin m)) (obs : FileBytes) :
      c.readers j = .readDone obs → c.lock = .readers hs →
      Step c { c with
        lock := if hs.erase j = ∅ then .free else .readers (hs.erase j),
        readers := Function.update c.readers j (.done obs) }

/-- Configurations reachable from the initial one. -/
def Reachable (n m : Nat) (v0 : Nat) (c : Config n m) : Prop :=
  Relation.ReflTransGen Step (Config.init n m v0) c

/-- A concrete four-step writer run followed by a three-step reader run,
used to exhibit a reachable configuration with a recorded observation. -/
def run0 : Config 1 1 := Config.init 1 1 0

/-- After the writer acquires the write lock. -/
def run1 : Config 1 1 :=
  { run0 with lock := .writer, writers := Function.update run0.writers 0 .locked }

/-- After os.WriteFile truncates the file. -/
def run2 : Config 1 1 :=
  { run1 with file := .torn, writers := Function.update run1.writers 0 .midWrite }

/-- After the write completes. -/
def run3 : Config 1 1 :=
  { run2 with file := .whole 5, writers := Function.update run2.writers 0 .wrote }

/-- After the writer releases the lock. -/
def run4 : Config 1 1 :=
  { run3 with lock := .free, writers := Function.update run3.writers 0 .done }

/-- After the reader acquires the read lock. -/
def run5 : Config 1 1 :=
  { run4 with lock := .readers {0}, readers := Function.update run4.readers 0 .locked }

/-- After the reader reads the file. -/
def run6 : Config 1 1 :=
  { run5 with readers := Function.update run5.readers 0 (.readDone run5.file) }

/-- After the reader releases the lock. -/
def run7 : Config 1 1 :=
  { run6 with
    lock := if (({0} : Finset (Fin 1)).erase 0) = ∅ then .free
            else .readers (({0} : Finset (Fin 1)).erase 0),
    readers := Function.update run6.readers 0 (.done (.whole 5)) }

/-- Inductive invariant: the lock state mirrors exactly which threads hold
the lock, the file is torn only while a writer is mid-write, and every
recorded observation is a complete document. -/
def Inv {n m : Nat} (c : Config n m) : Prop :=
  (match c.lock with
   | .free => (∀ i, (c.writers i).holds = false) ∧ ∀ j, (c.readers j).holds = false
   | .readers hs =>
       (∀ i, (c.writers i).holds = false) ∧
       (∀ j, (c.readers j).holds = true ↔ j ∈ hs) ∧ hs ≠ ∅
   | .writer =>
       (∃ i, (c.writers i).holds = true ∧ ∀ i2, (c.writers i2).holds = true → i2 = i) ∧
       ∀ j, (c.readers j).holds = false) ∧
  (c.file = .torn → ∃ i, c.writers i = .midWrite) ∧
  (∀ j, (c.readers j).observed ≠ some .torn)

end lockmodel

namespace examples

open models filestore

/-- A syntactically valid version-4 UUID. -/
def uuidA : String := "11111111-1111-4111-8111-111111111111"

/-- A second syntactically valid UUID. -/
def uuidB : String := "22222222-2222-4222-8222-222222222222"

/-- A third syntactically valid UUID, used as the generator output. -/
def uuidC : String := "33333333-3333-4333-8333-333333333333"

/-- The zero models.Entity. -/
def eZero : Entity :=
  { Name := "", EntityType := "", Observations := [], CreatedAt := 0, LastModified := 0 }

/-- An arbitrary initial heap. -/
def heap0 : Nat → Entity := fun _ => eZero

/-- A UUID generator that always produces a well-formed UUID. -/
def genA : Nat → String := fun _ => uuidC

/-- A fully populated observation. -/
def oW1 : Observation :=
  { ID := uuidA, Text := "first fact", CreatedAt := 3, Source := "user_input" }

/-- A second fully populated observation. -/
def oW2 : Observation :=
  { ID := uuidB, Text := "second fact", CreatedAt := 4, Source := "code_analysis" }

/-- A valid, fully populated entity with two observations. -/
def eW : Entity :=
  { Name := "project_standards", EntityType := "guideline",
    Observations := [oW1, oW2], CreatedAt := 1, LastModified := 2 }

/-- A valid entity named x. -/
def eX : Entity :=
  { Name := "x", EntityType := "t", Observations := [], CreatedAt := 1, LastModified := 1 }

/-- A valid duplicate of eX (same name, separately allocated). -/
def eXdup : Entity :=
  { Name := "x", EntityType := "t2", Observations := [], CreatedAt := 2, LastModified := 2 }

/-- An invalid entity bearing the name x: its EntityType is empty. -/
def eXbad : Entity :=
  { Name := "x", EntityType := "", Observations := [], CreatedAt := 1, LastModified := 1 }

/-- Fresh store with eX allocated at address 0. -/
def sC2a : FileStore := ((FileStore.init heap0).alloc eX).1

/-- Store after the first, successful CreateEntity of eX. -/
def sC2b : FileStore := (sC2a.CreateEntity 9 genA 0).1

/-- Store sC2b with the invalid duplicate eXbad allocated at address 1. -/
def sC2c : FileStore := (sC2b.alloc eXbad).1

/-- Fresh store with eX allocated at address 0 and its valid duplicate
eXdup separately allocated at address 1, before any create. -/
def sC2pre : FileStore := (((FileStore.init heap0).alloc eX).1.alloc eXdup).1

/-- Store sC2pre after the first, successful CreateEntity of eX. -/
def sC2one : FileStore := (sC2pre.CreateEntity 9 genA 0).1

/-- A store whose entity file x.json holds a valid JSON document (the
string literal hello) that does not describe an entity. -/
def sC3 : FileStore :=
  { heap := heap0, nextAddr := 0,
    entitiesDir := [("x.json", .file (.str "hello"))],
    entityCache := fun _ => none }

/-- An observation whose ID is a nonempty string that is not a UUID. -/
def oBadID : Observation :=
  { ID := "x", Text := "hi", CreatedAt := 5, Source := "src" }

/-- An entity that meets every condition listed by the round of
name/type/text checks yet fails validation because of its observation ID. -/
def eBadID : Entity :=
  { Name := "n", EntityType := "t", Observations := [oBadID],
    CreatedAt := 1, LastModified := 1 }

/-- An observation already present on an entity before the two appends. -/
def oC : Observation :=
  { ID := uuidC, Text := "c", CreatedAt := 1, Source := "user_input" }

/-- An entity that already holds one observation. -/
def ePre : Entity :=
  { Name := "n", EntityType := "t", Observations := [oC], CreatedAt := 1, LastModified := 1 }

/-- The observation of the case-insensitive search example. -/
def obsCommit : Observation :=
  { ID := uuidA, Text := "use conventional commits", CreatedAt := 1, Source := "user_input" }

/-- A second observation that does not match the query. -/
def obsOther : Observation :=
  { ID := uuidB, Text := "use REST API patterns", CreatedAt := 2, Source := "user_input" }

/-- The entity of the case-insensitive search example. -/
def eCommit : Entity :=
  { Name := "project_standards", EntityType := "guideline",
    Observations := [obsCommit, obsOther], CreatedAt := 1, LastModified := 1 }

/-- Entity a of the listing example (type guideline). -/
def eA : Entity :=
  { Name := "a", EntityType := "guideline", Observations := [obsCommit],
    CreatedAt := 1, LastModified := 1 }

/-- Entity b of the listing example (type guideline). -/
def eB : Entity :=
  { Name := "b", EntityType := "guideline", Observations := [],
    CreatedAt := 1, LastModified := 1 }

/-- Entity c of the listing example (type pattern). -/
def eC : Entity :=
  { Name := "c", EntityType := "pattern", Observations := [],
    CreatedAt := 1, LastModified := 1 }

/-- A store holding the files of eA, eB and eC, deliberately listed out of
order in the directory representation, with a cold cache. -/
def sList : FileStore :=
  { heap := heap0, nextAddr := 0,
    entitiesDir := [("b.json", .file eB.ToJSON), ("c.json", .file eC.ToJSON),
                    ("a.json", .file eA.ToJSON)],
    entityCache := fun _ => none }

end examples

namespace models

/-- Default population of one observation, following the specification: an
empty ID is filled with the freshly generated UUID of its slot, a zero
CreatedAt with the current time, and an empty Source with the sentinel
user_input. -/
def populateObsSpec (now : Time) (id : String) (o : Observation) : Observation :=
  { o with ID := if o.ID = "" then id else o.ID,
           CreatedAt := if o.CreatedAt = 0 then now else o.CreatedAt,
           Source := if o.Source = "" then "user_input" else o.Source }

/-- Default population of a list of observations, indexed by slot. -/
def populateObsListSpec (now : Time) (gen : Nat → String) :
    Nat → List Observation → List Observation
  | _, [] => []
  | i, o :: rest =>
    populateObsSpec now (gen i) o :: populateObsListSpec now gen (i + 1) rest

/-- Default population of an entity, following the specification: zero
entity timestamps are filled with the current time and every observation
is populated in order. -/
def populateSpec (now : Time) (gen : Nat → String) (e : Entity) : Entity :=
  { e with CreatedAt := if e.CreatedAt = 0 then now else e.CreatedAt,
           LastModified := if e.LastModified = 0 then now else e.LastModified,
           Observations := populateObsListSpec now gen 0 e.Observations }

/-- Failure condition of Observation.Validate on one observation, as
amended: the text conditions of the original claim plus the two checks the
claim omits (a nonempty ID that is not a UUID, and a source longer than
100 characters). -/
def obsValidateFails (o : Observation) : Prop :=
  o.Text = "" ∨ 1000 < o.Text.length ∨
  (o.ID ≠ "" ∧ isUUID o.ID = false) ∨ 100 < o.Source.length

instance (o : Observation) : Decidable (obsValidateFails o) := by
  unfold obsValidateFails; infer_instance

/-- Failure condition of Entity.Validate, as amended: the conditions of
the original claim plus the two checks the claim omits. -/
def validateFails (e : Entity) : Prop :=
  e.Name = "" ∨ 200 < e.Name.length ∨
  e.EntityType = "" ∨ 100 < e.EntityType.length ∨
  ∃ o ∈ e.Observations, obsValidateFails o

instance (e : Entity) : Decidable (validateFails e) := by
  unfold validateFails; infer_instance

/-- Failure condition of Entity.Validate exactly as the original claim
states it (name, type and text checks only). -/
def claimedValidateFails (e : Entity) : Prop :=
  e.Name = "" ∨ 200 < e.Name.length ∨
  e.EntityType = "" ∨ 100 < e.EntityType.length ∨
  ∃ o ∈ e.Observations, o.Text = "" ∨ 1000 < o.Text.length

instance (e : Entity) : Decidable (claimedValidateFails e) := by
  unfold claimedValidateFails; infer_instance

end models

namespace filestore

open models

/-- One directory entry of a listing, as the specification describes it:
subdirectories and entries not named with a .json suffix contribute
nothing, and a remaining stem contributes the entity GetEntity returns for
it in the pre-listing state, filtered by type; a failing load contributes
nothing. -/
def listingSpec (s : FileStore) (entityType : String) (p : String × FsNode) :
    Option Entity :=
  if p.2.isDir then none
  else if hasSuffix p.1 ".json" then
    match s.GetEntityVal (trimSuffix p.1 ".json") with
    | .error _ => none
    | .ok e =>
      if entityType = "" ∨ e.EntityType = entityType then some e else none
  else none

end filestore

namespace models

theorem isPrefixOf_eq_true : ∀ l1 l2 : List Char, l1.isPrefixOf l2 = true ↔ l1 <+: l2
  | [], l2 => by simp [List.isPrefixOf]
  | a :: as, [] => by simp [List.isPrefixOf]
  | a :: as, b :: bs => by
    simp [List.isPrefixOf, List.cons_prefix_cons, isPrefixOf_eq_true as bs,
      Bool.and_eq_true, beq_iff_eq]

theorem listContains_iff : ∀ t pat : List Char, listContains t pat = true ↔ pat <:+: t
  | [], [] => by simp [listContains]
  | c :: rest, [] => by simp [listContains]
  | [], p :: ps => by simp [listContains]
  | c :: rest, p :: ps => by
    cases hp : (p :: ps).isPrefixOf (c :: rest) with
    | true =>
      have hpre := (isPrefixOf_eq_true _ _).mp hp
      simp [listContains, hp, hpre.isInfix]
    | false =>
      have hnpre : ¬ (p :: ps) <+: (c :: rest) := fun h => by
        rw [(isPrefixOf_eq_true _ _).mpr h] at hp
        cases hp
      simp [listContains, hp, List.infix_cons_iff, listContains_iff rest (p :: ps), hnpre]

theorem strContains_eq_decide (text q : String) :
    strContains text q =
      decide ((q.toList.map lowerChar) <:+: (text.toList.map lowerChar)) := by
  unfold strContains
  cases h : listContains (text.toList.map lowerChar) (q.toList.map lowerChar) with
  | true =>
    exact (decide_eq_true ((listContains_iff _ _).mp h)).symm
  | false =>
    refine (decide_eq_false ?_).symm
    intro hinf
    rw [(listContains_iff _ _).mpr hinf] at h
    exact Bool.true_eq_false.mp h

theorem foldl_collect_eq_filter (p : Observation → Bool) :
    ∀ (l acc : List Observation),
      l.foldl (fun acc o => if p o then acc ++ [o] else acc) acc = acc ++ l.filter p
  | [], acc => by simp
  | o :: rest, acc => by
    cases h : p o <;>
      simp [List.foldl_cons, h, foldl_collect_eq_filter p rest, List.filter_cons]

/-- C7: Entity.SearchObservations returns exactly the observations whose
text contains the query case-insensitively (substring of the lowered text),
in their original order, and on the concrete example the observation with
text "use conventional commits" is returned for the query "COMMIT".  The
function is pure, so the entity is not modified. -/
theorem C7_search_observations (e : Entity) (q : String) :
    e.SearchObservations q =
      e.Observations.filter
        (fun o => decide ((q.toList.map lowerChar) <:+: (o.Text.toList.map lowerChar))) ∧
    examples.eCommit.SearchObservations "COMMIT" = [examples.obsCommit] := by
  constructor
  · unfold Entity.SearchObservations
    rw [foldl_collect_eq_filter, List.nil_append]
    exact List.filter_congr fun o _ => strContains_eq_decide o.Text q
  · decide

/-- C6 counterexample: on an entity that already holds an observation, the
two appends do not yield the two-element sequence the claim states. -/
theorem C6_counterexample :
    ((examples.ePre.AddObservation examples.uuidA 5 "a").AddObservation
        examples.uuidB 6 "b").Observations ≠
      [NewObservation examples.uuidA 5 "a", NewObservation examples.uuidB 6 "b"] := by
  decide

/-- C6 (amended): for every entity holding no observations, appending "a"
then "b" yields exactly those two observations in insertion order with
LastModified updated; removing the ID of the first yields the second alone
and returns true; removing an ID not present returns false and changes
nothing. -/
theorem C6_amended (e : Entity) (idA idB idU : String) (nowA nowB nowR nowU : Time)
    (hobs : e.Observations = []) (hUA : idU ≠ idA) (hUB : idU ≠ idB) :
    ((e.AddObservation idA nowA "a").AddObservation idB nowB "b").Observations =
      [NewObservation idA nowA "a", NewObservation idB nowB "b"] ∧
    ((e.AddObservation idA nowA "a").AddObservation idB nowB "b").LastModified = nowB ∧
    ((e.AddObservation idA nowA "a").AddObservation idB nowB "b").RemoveObservation nowR idA =
      ({ (e.AddObservation idA nowA "a").AddObservation idB nowB "b" with
          Observations := [NewObservation idB nowB "b"], LastModified := nowR }, true) ∧
    ((e.AddObservation idA nowA "a").AddObservation idB nowB "b").RemoveObservation nowU idU =
      ((e.AddObservation idA nowA "a").AddObservation idB nowB "b", false) := by
  refine ⟨?_, ?_, ?_, ?_⟩
  · simp [Entity.AddObservation, hobs]
  · simp [Entity.AddObservation]
  · simp [Entity.RemoveObservation, Entity.AddObservation, hobs, removeFirst, NewObservation]
  · simp [Entity.RemoveObservation, Entity.AddObservation, hobs, removeFirst, NewObservation,
      Ne.symm hUA, Ne.symm hUB]

/-- C6 witness: the amended theorem applied to a concrete observation-free
entity and three distinct UUIDs. -/
theorem C6_witness :
    ((examples.eX.AddObservation examples.uuidA 5 "a").AddObservation
        examples.uuidB 6 "b").Observations =
      [NewObservation examples.uuidA 5 "a", NewObservation examples.uuidB 6 "b"] ∧
    ((examples.eX.AddObservation examples.uuidA 5 "a").AddObservation
        examples.uuidB 6 "b").RemoveObservation 8 examples.uuidC =
      ((examples.eX.AddObservation examples.uuidA 5 "a").AddObservation
        examples.uuidB 6 "b", false) := by
  have h := C6_amended examples.eX examples.uuidA examples.uuidB examples.uuidC 5 6 7 8
    (by decide) (by decide) (by decide)
  exact ⟨h.1, h.2.2.2⟩

theorem string_eq_empty_iff (s : String) : s = "" ↔ s.length = 0 := by
  constructor
  · intro h; rw [h]; rfl
  · intro h
    apply String.ext
    simpa using List.length_eq_zero.mp h

theorem isUUID_ne_empty {s : String} (h : isUUID s = true) : s ≠ "" := by
  intro he
  rw [he] at h
  exact absurd h (by decide)

theorem populateObs_structValid (now : Time) (id : String) (o : Observation)
    (hid : isUUID id = true) :
    (populateObsSpec now id o).structValid = true ↔ ¬ obsValidateFails o := by
  have htext := string_eq_empty_iff o.Text
  have hsrc := string_eq_empty_iff o.Source
  have huser : ("user_input" : String).length = 10 := by decide
  have hemp : isUUID "" = false := by decide
  unfold populateObsSpec Observation.structValid obsValidateFails
  by_cases h1 : o.ID = ""
  · by_cases h2 : o.Source = ""
    · cases hu : isUUID o.ID <;> simp [h1, h2, hid, hu, htext, hsrc, huser, hemp] <;> omega
    · have h2l : ¬ o.Source.length = 0 := fun hl => h2 (hsrc.mpr hl)
      cases hu : isUUID o.ID <;> simp [h1, h2, hid, hu, htext, hsrc, huser, hemp] <;> omega
  · by_cases h2 : o.Source = ""
    · cases hu : isUUID o.ID <;> simp [h1, h2, hid, hu, htext, hsrc, huser, hemp] <;> omega
    · have h2l : ¬ o.Source.length = 0 := fun hl => h2 (hsrc.mpr hl)
      cases hu : isUUID o.ID <;> simp [h1, h2, hid, hu, htext, hsrc, huser, hemp] <;> omega

theorem obsValidate_unfold (now : Time) (id : String) (o : Observation) :
    o.Validate now id =
      (if (populateObsSpec now id o).structValid = true
       then Except.ok (populateObsSpec now id o)
       else Except.error "observation validation failed") := rfl

theorem obsValidate_ok (now : Time) (id : String) (o : Observation)
    (hid : isUUID id = true) (hok : ¬ obsValidateFails o) :
    o.Validate now id = .ok (populateObsSpec now id o) := by
  rw [obsValidate_unfold, if_pos ((populateObs_structValid now id o hid).mpr hok)]

theorem obsValidate_err (now : Time) (id : String) (o : Observation)
    (hid : isUUID id = true) (hbad : obsValidateFails o) :
    o.Validate now id = .error "observation validation failed" := by
  have h2 : ¬ (populateObsSpec now id o).structValid = true := fun hv =>
    absurd ((populateObs_structValid now id o hid).mp hv) (not_not.mpr hbad)
  rw [obsValidate_unfold, if_neg h2]

theorem validateObsList_ok (now : Time) (gen : Nat → String)
    (hgen : ∀ i, isUUID (gen i) = true) :
    ∀ (os : List Observation) (i : Nat), (∀ o ∈ os, ¬ obsValidateFails o) →
      validateObsList now gen i os = .ok (populateObsListSpec now gen i os)
  | [], _, _ => rfl
  | o :: rest, i, h => by
    rw [validateObsList, obsValidate_ok now (gen i) o (hgen i) (h o (List.mem_cons_self o rest)),
      validateObsList_ok now gen hgen rest (i + 1)
        (fun o2 ho2 => h o2 (List.mem_cons_of_mem o ho2))]
    rfl

theorem validateObsList_err (now : Time) (gen : Nat → String)
    (hgen : ∀ i, isUUID (gen i) = true) :
    ∀ (os : List Observation) (i : Nat), (∃ o ∈ os, obsValidateFails o) →
      validateObsList now gen i os = .error "observation validation failed"
  | [], _, h => absurd h (by simp)
  | o :: rest, i, h => by
    by_cases ho : obsValidateFails o
    · rw [validateObsList, obsValidate_err now (gen i) o (hgen i) ho]
    · have hrest : ∃ o2 ∈ rest, obsValidateFails o2 := by
        rcases h with ⟨o2, ho2, hbad⟩
        rcases List.mem_cons.mp ho2 with he | hm
        · exact absurd (he ▸ hbad) ho
        · exact ⟨o2, hm, hbad⟩
      rw [validateObsList, obsValidate_ok now (gen i) o (hgen i) ho,
        validateObsList_err now gen hgen rest (i + 1) hrest]

theorem entity_structValid_iff (e : Entity) :
    e.structValid = true ↔
      ¬ (e.Name = "" ∨ 200 < e.Name.length ∨ e.EntityType = "" ∨
         100 < e.EntityType.length) := by
  have h1 := string_eq_empty_iff e.Name
  have h2 := string_eq_empty_iff e.EntityType
  unfold Entity.structValid
  simp [h1, h2]
  omega

theorem populateObsListSpec_mem (now : Time) (gen : Nat → String) :
    ∀ (os : List Observation) (i : Nat) (o : Observation),
      o ∈ populateObsListSpec now gen i os →
      ∃ k o0, o0 ∈ os ∧ o = populateObsSpec now (gen k) o0
  | [], _, _, h => absurd h (by simp [populateObsListSpec])
  | o0 :: rest, i, o, h => by
    rcases List.mem_cons.mp h with he | hm
    · exact ⟨i, o0, List.mem_cons_self o0 rest, he⟩
    · rcases populateObsListSpec_mem now gen rest (i + 1) o hm with ⟨k, o1, hmem, heq⟩
      exact ⟨k, o1, List.mem_cons_of_mem o0 hmem, heq⟩

theorem entityValidate_unfold (now : Time) (gen : Nat → String) (e : Entity) :
    e.Validate now gen =
      (match validateObsList now gen 0 e.Observations with
       | .error msg => .error msg
       | .ok obs2 =>
         if (Entity.structValid { e with
              CreatedAt := if e.CreatedAt = 0 then now else e.CreatedAt,
              LastModified := if e.LastModified = 0 then now else e.LastModified,
              Observations := obs2 }) = true
         then .ok ({ e with
              CreatedAt := if e.CreatedAt = 0 then now else e.CreatedAt,
              LastModified := if e.LastModified = 0 then now else e.LastModified,
              Observations := obs2 } : Entity)
         else .error "entity validation failed") := rfl

/-- C5 counterexample: eBadID satisfies none of the failure conditions the
claim lists (its name, type and observation text are all within bounds),
yet Validate fails, because the nonempty observation ID "x" is not a UUID. -/
theorem C5_counterexample :
    examples.eBadID.Validate 9 examples.genA = .error "observation validation failed" ∧
    ¬ claimedValidateFails examples.eBadID := by
  constructor
  · rfl
  · decide

/-- C5 (amended): provided the UUID generator yields well-formed UUIDs and
the current time is nonzero, Validate fails exactly when the name is empty
or longer than 200, the type is empty or longer than 100, or some
observation has empty text, text longer than 1000, a nonempty ID that is
not a UUID, or a source longer than 100 characters; on success the result
is the default-populated entity, which has no missing IDs, timestamps or
sources. -/
theorem C5_validate (e : Entity) (now : Time) (gen : Nat → String)
    (hgen : ∀ i, isUUID (gen i) = true) (hnow : now ≠ 0) :
    ((∃ msg, e.Validate now gen = .error msg) ↔ validateFails e) ∧
    (∀ e2, e.Validate now gen = .ok e2 → e2 = populateSpec now gen e) ∧
    (∀ e2, e.Validate now gen = .ok e2 →
      e2.CreatedAt ≠ 0 ∧ e2.LastModified ≠ 0 ∧
      ∀ o ∈ e2.Observations, o.ID ≠ "" ∧ o.CreatedAt ≠ 0 ∧ o.Source ≠ "") := by
  have hmain : (validateFails e → ∃ msg, e.Validate now gen = .error msg) ∧
      (¬ validateFails e → e.Validate now gen = .ok (populateSpec now gen e)) := by
    constructor
    · intro hf
      rw [entityValidate_unfold]
      by_cases hobs : ∃ o ∈ e.Observations, obsValidateFails o
      · rw [validateObsList_err now gen hgen _ 0 hobs]
        exact ⟨"observation validation failed", rfl⟩
      · have hok : ∀ o ∈ e.Observations, ¬ obsValidateFails o := by
          intro o ho hbad; exact hobs ⟨o, ho, hbad⟩
        have hname : e.Name = "" ∨ 200 < e.Name.length ∨ e.EntityType = "" ∨
            100 < e.EntityType.length := by
          unfold validateFails at hf
          rcases hf with h | h | h | h | h
          · exact Or.inl h
          · exact Or.inr (Or.inl h)
          · exact Or.inr (Or.inr (Or.inl h))
          · exact Or.inr (Or.inr (Or.inr h))
          · exact absurd h hobs
        have hsv : (Entity.structValid { e with
            CreatedAt := if e.CreatedAt = 0 then now else e.CreatedAt,
            LastModified := if e.LastModified = 0 then now else e.LastModified,
            Observations := populateObsListSpec now gen 0 e.Observations }) = false := by
          cases hv : Entity.structValid { e with
              CreatedAt := if e.CreatedAt = 0 then now else e.CreatedAt,
              LastModified := if e.LastModified = 0 then now else e.LastModified,
              Observations := populateObsListSpec now gen 0 e.Observations }
          · rfl
          · exact absurd hname ((entity_structValid_iff _).mp hv)
        refine ⟨"entity validation failed", ?_⟩
        simp only [validateObsList_ok now gen hgen e.Observations 0 hok]
        rw [hsv]
        simp
    · intro hf
      rw [entityValidate_unfold]
      have hok : ∀ o ∈ e.Observations, ¬ obsValidateFails o := by
        intro o ho hbad
        exact hf (Or.inr (Or.inr (Or.inr (Or.inr ⟨o, ho, hbad⟩))))
      have hname : ¬ (e.Name = "" ∨ 200 < e.Name.length ∨ e.EntityType = "" ∨
          100 < e.EntityType.length) := by
        intro h
        apply hf
        unfold validateFails
        rcases h with h | h | h | h
        · exact Or.inl h
        · exact Or.inr (Or.inl h)
        · exact Or.inr (Or.inr (Or.inl h))
        · exact Or.inr (Or.inr (Or.inr (Or.inl h)))
      have hsv := (entity_structValid_iff { e with
          CreatedAt := if e.CreatedAt = 0 then now else e.CreatedAt,
          LastModified := if e.LastModified = 0 then now else e.LastModified,
          Observations := populateObsListSpec now gen 0 e.Observations }).mpr hname
      simp only [validateObsList_ok now gen hgen e.Observations 0 hok]
      rw [hsv]
      simp
      rfl
  refine ⟨⟨?_, hmain.1⟩, ?_, ?_⟩
  · rintro ⟨msg, hmsg⟩
    by_cases hf : validateFails e
    · exact hf
    · rw [hmain.2 hf] at hmsg; cases hmsg
  · intro e2 h2
    by_cases hf : validateFails e
    · rcases hmain.1 hf with ⟨msg, hmsg⟩
      rw [hmsg] at h2; cases h2
    · rw [hmain.2 hf] at h2
      exact (Except.ok.injEq _ _).mp h2.symm
  · intro e2 h2
    by_cases hf : validateFails e
    · rcases hmain.1 hf with ⟨msg, hmsg⟩
      rw [hmsg] at h2; cases h2
    · rw [hmain.2 hf] at h2
      have he2 : e2 = populateSpec now gen e := (Except.ok.injEq _ _).mp h2.symm
      subst he2
      unfold populateSpec
      refine ⟨?_, ?_, ?_⟩
      · by_cases hc : e.CreatedAt = 0 <;> simp [hc, hnow]
      · by_cases hc : e.LastModified = 0 <;> simp [hc, hnow]
      · intro o ho
        simp only at ho
        rcases populateObsListSpec_mem now gen e.Observations 0 o ho with ⟨k, o0, _, heq⟩
        subst heq
        unfold populateObsSpec
        refine ⟨?_, ?_, ?_⟩
        · by_cases hi : o0.ID = "" <;> simp [hi, isUUID_ne_empty (hgen k)]
        · by_cases hi : o0.CreatedAt = 0 <;> simp [hi, hnow]
        · by_cases hi : o0.Source = "" <;> simp [hi]

/-- C5 witness: the amended theorem applied to the concrete entity eW,
whose validation succeeds and is the identity. -/
theorem C5_witness :
    (examples.eW.Validate 9 examples.genA = .ok (populateSpec 9 examples.genA examples.eW)) ∧
    ¬ validateFails examples.eW := by
  have h := C5_validate examples.eW 9 examples.genA
    (fun _ => (by decide : isUUID examples.uuidC = true)) (by decide)
  have hnf : ¬ validateFails examples.eW := by decide
  refine ⟨?_, hnf⟩
  cases hv : examples.eW.Validate 9 examples.genA with
  | error msg => exact absurd (h.1.mp ⟨msg, hv⟩) hnf
  | ok e2 => rw [h.2.1 e2 hv]

theorem obs_fromJSON_toJSON (o : Observation) :
    Observation.FromJSON o.ToJSON = .ok o := rfl

theorem decodeObsElems_map : ∀ os : List Observation,
    decodeObsElems (os.map Observation.ToJSON) = .ok os
  | [] => rfl
  | o :: rest => by
    simp only [List.map_cons, decodeObsElems, obs_fromJSON_toJSON,
      decodeObsElems_map rest]

theorem entity_fromJSON_toJSON (e : Entity) :
    Entity.FromJSON e.ToJSON = .ok e := by
  show (match decodeObsElems (e.Observations.map Observation.ToJSON) with
        | .error msg => (.error msg : Except String Entity)
        | .ok obs =>
          .ok { Name := e.Name, EntityType := e.EntityType, Observations := obs,
                CreatedAt := e.CreatedAt, LastModified := e.LastModified }) = .ok e
  rw [decodeObsElems_map e.Observations]

theorem validate_ok_name (now : Time) (gen : Nat → String) (e e2 : Entity)
    (h : e.Validate now gen = .ok e2) :
    e2.Name = e.Name ∧ e2.EntityType = e.EntityType := by
  rw [entityValidate_unfold] at h
  cases hv : validateObsList now gen 0 e.Observations with
  | error msg =>
    simp only [hv] at h
    exact Except.noConfusion h
  | ok obs2 =>
    simp only [hv] at h
    by_cases hs : (Entity.structValid { e with
        CreatedAt := if e.CreatedAt = 0 then now else e.CreatedAt,
        LastModified := if e.LastModified = 0 then now else e.LastModified,
        Observations := obs2 }) = true
    · rw [if_pos hs] at h
      cases h
      exact ⟨rfl, rfl⟩
    · rw [if_neg hs] at h
      cases h

end models

namespace filestore

open models

theorem findFile_writeFile_self : ∀ (d : List (String × FsNode)) (fn : String)
    (nd : FsNode), findFile (writeFile d fn nd) fn = some nd
  | [], fn, nd => by simp [writeFile, findFile]
  | (k, v) :: rest, fn, nd => by
    by_cases h : k = fn
    · simp [writeFile, findFile, h]
    · simp [writeFile, findFile, h, findFile_writeFile_self rest fn nd]

theorem findFile_writeFile_ne : ∀ (d : List (String × FsNode)) (fn fn2 : String)
    (nd : FsNode), fn2 ≠ fn → findFile (writeFile d fn nd) fn2 = findFile d fn2
  | [], fn, fn2, nd, h => by
    have hne : ¬ fn = fn2 := fun hh => h hh.symm
    simp [writeFile, findFile, hne]
  | (k, v) :: rest, fn, fn2, nd, h => by
    by_cases hk : k = fn
    · have hne : ¬ fn = fn2 := fun hh => h hh.symm
      subst hk
      simp [writeFile, findFile, hne]
    · simp only [writeFile, if_neg hk]
      by_cases hk2 : k = fn2
      · simp [findFile, hk2]
      · simp [findFile, hk2, findFile_writeFile_ne rest fn fn2 nd h]

theorem CreateEntity_fresh (s : FileStore) (a : Nat) (e : Entity) (now : Time)
    (gen : Nat → String) (ha : s.heap a = e) (hval : e.Validate now gen = .ok e)
    (hnf : findFile s.entitiesDir (getEntityFilePath e.Name) = none) :
    s.CreateEntity now gen a =
      ({ s with heap := Function.update s.heap a e,
                entitiesDir := writeFile s.entitiesDir (getEntityFilePath e.Name)
                  (.file e.ToJSON),
                entityCache := Function.update s.entityCache e.Name (some a) },
       none) := by
  unfold FileStore.CreateEntity
  rw [ha, hval]
  simp only [FileStore.EntityExists, FileStore.saveEntityFile, hnf, Option.isSome_none,
    Bool.false_eq_true, if_false]

theorem GetEntity_hit (s : FileStore) (name : String) (a : Nat)
    (hc : s.entityCache name = some a) :
    s.GetEntity name = (s, .ok a) := by
  unfold FileStore.GetEntity
  rw [hc]

theorem GetEntity_miss_file (s : FileStore) (name : String) (j : Json) (e : Entity)
    (hc : s.entityCache name = none)
    (hf : findFile s.entitiesDir (getEntityFilePath name) = some (.file j))
    (hd : Entity.FromJSON j = .ok e) :
    s.GetEntity name =
      ({ s with heap := Function.update s.heap s.nextAddr e,
                nextAddr := s.nextAddr + 1,
                entityCache := Function.update s.entityCache name (some s.nextAddr) },
       .ok s.nextAddr) := by
  unfold FileStore.GetEntity FileStore.loadEntityFile
  simp only [hc, hf, hd]

theorem GetEntityVal_hit (s : FileStore) (name : String) (a : Nat)
    (hc : s.entityCache name = some a) :
    s.GetEntityVal name = .ok (s.heap a) := by
  unfold FileStore.GetEntityVal
  rw [GetEntity_hit s name a hc]

theorem GetEntityVal_miss_file (s : FileStore) (name : String) (j : Json) (e : Entity)
    (hc : s.entityCache name = none)
    (hf : findFile s.entitiesDir (getEntityFilePath name) = some (.file j))
    (hd : Entity.FromJSON j = .ok e) :
    s.GetEntityVal name = .ok e := by
  unfold FileStore.GetEntityVal
  rw [GetEntity_miss_file s name j e hc hf hd]
  simp [Function.update_same]

/-- C1: for an entity that passes Validate unchanged, CreateEntity on a
freshly initialized store succeeds, and after ClearCache a GetEntity for
the same name succeeds and returns a value deep-equal to the created
entity (every field, including the full ordered observation list,
survives the JSON round trip through the entity file). -/
theorem C1_create_roundtrip (heap0 : Nat → Entity) (e : Entity) (now : Time)
    (gen : Nat → String) (hval : e.Validate now gen = .ok e) :
    (((FileStore.init heap0).alloc e).1.CreateEntity now gen
        ((FileStore.init heap0).alloc e).2).2 = none ∧
    ((((FileStore.init heap0).alloc e).1.CreateEntity now gen
        ((FileStore.init heap0).alloc e).2).1.ClearCache).GetEntityVal e.Name =
      .ok e := by
  have hcreate := CreateEntity_fresh ((FileStore.init heap0).alloc e).1
    ((FileStore.init heap0).alloc e).2 e now gen rfl hval rfl
  constructor
  · rw [hcreate]
  · rw [hcreate]
    exact GetEntityVal_miss_file _ _ e.ToJSON e rfl
      (findFile_writeFile_self _ _ _) (entity_fromJSON_toJSON e)

/-- C1 witness: the concrete entity eW with two observations is created on
a fresh store, the cache is cleared, and GetEntity returns it unchanged. -/
theorem C1_witness :
    (((FileStore.init examples.heap0).alloc examples.eW).1.CreateEntity 9 examples.genA
        ((FileStore.init examples.heap0).alloc examples.eW).2).2 = none ∧
    ((((FileStore.init examples.heap0).alloc examples.eW).1.CreateEntity 9 examples.genA
        ((FileStore.init examples.heap0).alloc examples.eW).2).1.ClearCache).GetEntityVal
        examples.eW.Name = .ok examples.eW :=
  C1_create_roundtrip examples.heap0 examples.eW 9 examples.genA rfl

theorem GetEntity_miss_absent (s : FileStore) (name : String)
    (hc : s.entityCache name = none)
    (hf : findFile s.entitiesDir (getEntityFilePath name) = none) :
    s.GetEntity name = (s, .error (.notFound name)) := by
  unfold FileStore.GetEntity FileStore.loadEntityFile
  simp only [hc, hf]

theorem GetEntity_miss_corrupt (s : FileStore) (name : String)
    (hc : s.entityCache name = none)
    (hf : findFile s.entitiesDir (getEntityFilePath name) = some .corrupt) :
    s.GetEntity name = (s, .error .decodeFailed) := by
  unfold FileStore.GetEntity FileStore.loadEntityFile
  simp only [hc, hf]

theorem GetEntity_miss_badjson (s : FileStore) (name : String) (j : Json) (msg : String)
    (hc : s.entityCache name = none)
    (hf : findFile s.entitiesDir (getEntityFilePath name) = some (.file j))
    (hd : Entity.FromJSON j = .error msg) :
    s.GetEntity name = (s, .error .decodeFailed) := by
  unfold FileStore.GetEntity FileStore.loadEntityFile
  simp only [hc, hf, hd]

/-- C3 counterexample: the file x.json of sC3 holds valid JSON (the JSON
string hello), yet GetEntity fails with a decode error instead of
returning a deserialized entity, refuting the reading that decode errors
happen only when the file is not valid JSON. -/
theorem C3_counterexample :
    findFile examples.sC3.entitiesDir (getEntityFilePath "x") =
      some (.file (.str "hello")) ∧
    examples.sC3.entityCache "x" = none ∧
    examples.sC3.GetEntity "x" = (examples.sC3, .error .decodeFailed) :=
  ⟨rfl, rfl, rfl⟩

/-- C3 (amended): a cache hit returns the cached pointer with no state
change and independently of the directory contents (no file read); on a
miss, an absent file yields NotFound with no state change, a file that is
not valid JSON or does not decode into an entity yields a decode error
with no state change (no cache entry is created), and a file that decodes
yields the entity, freshly allocated and inserted into the cache. -/
theorem C3_get_entity (s : FileStore) (name : String) :
    (∀ a, s.entityCache name = some a →
      ∀ dir2, FileStore.GetEntity { s with entitiesDir := dir2 } name =
        ({ s with entitiesDir := dir2 }, .ok a)) ∧
    (s.entityCache name = none →
      ((findFile s.entitiesDir (getEntityFilePath name) = none →
          s.GetEntity name = (s, .error (.notFound name))) ∧
       (findFile s.entitiesDir (getEntityFilePath name) = some .corrupt →
          s.GetEntity name = (s, .error .decodeFailed)) ∧
       (∀ j, findFile s.entitiesDir (getEntityFilePath name) = some (.file j) →
         (∀ msg, Entity.FromJSON j = .error msg →
            s.GetEntity name = (s, .error .decodeFailed)) ∧
         (∀ e, Entity.FromJSON j = .ok e →
            s.GetEntity name =
              ({ s with heap := Function.update s.heap s.nextAddr e,
                        nextAddr := s.nextAddr + 1,
                        entityCache := Function.update s.entityCache name
                          (some s.nextAddr) },
               .ok s.nextAddr) ∧
            s.GetEntityVal name = .ok e)))) := by
  refine ⟨?_, fun hc => ⟨?_, ?_, fun j hf => ⟨?_, ?_⟩⟩⟩
  · intro a hc dir2
    exact GetEntity_hit _ name a hc
  · intro hf
    exact GetEntity_miss_absent s name hc hf
  · intro hf
    exact GetEntity_miss_corrupt s name hc hf
  · intro msg hd
    exact GetEntity_miss_badjson s name j msg hc hf hd
  · intro e hd
    exact ⟨GetEntity_miss_file s name j e hc hf hd,
      GetEntityVal_miss_file s name j e hc hf hd⟩

/-- C3 witness: over the concrete one-file store sList, a cache miss on a
decodable file returns the decoded entity and fills the cache. -/
theorem C3_witness :
    examples.sList.GetEntityVal "a" = .ok examples.eA ∧
    examples.sList.GetEntity "a" =
      ({ examples.sList with
          heap := Function.update examples.sList.heap 0 examples.eA,
          nextAddr := 1,
          entityCache := Function.update examples.sList.entityCache "a" (some 0) },
       .ok 0) := by
  have h := (C3_get_entity examples.sList "a").2 rfl
  have h2 := (h.2.2 examples.eA.ToJSON (by
    show findFile examples.sList.entitiesDir "a.json" = some (.file examples.eA.ToJSON)
    rfl)).2 examples.eA (entity_fromJSON_toJSON examples.eA)
  exact ⟨h2.2, h2.1⟩

theorem CreateEntity_exists (s : FileStore) (a : Nat) (e ev : Entity) (now : Time)
    (gen : Nat → String) (ha : s.heap a = e) (hval : e.Validate now gen = .ok ev)
    (nd : FsNode)
    (hex : findFile s.entitiesDir (getEntityFilePath ev.Name) = some nd) :
    s.CreateEntity now gen a =
      ({ s with heap := Function.update s.heap a ev }, some (.alreadyExists ev.Name)) := by
  unfold FileStore.CreateEntity
  rw [ha]
  simp only [hval, FileStore.EntityExists, hex, Option.isSome_some, if_pos]

theorem CreateEntity_ok_inv (s s1 : FileStore) (a : Nat) (now : Time)
    (gen : Nat → String) (h : s.CreateEntity now gen a = (s1, none)) :
    ∃ e1, (s.heap a).Validate now gen = .ok e1 ∧
      s1.heap = Function.update s.heap a e1 ∧
      s1.entitiesDir = writeFile s.entitiesDir (getEntityFilePath e1.Name)
        (.file e1.ToJSON) ∧
      s1.entityCache = Function.update s.entityCache e1.Name (some a) ∧
      s1.nextAddr = s.nextAddr := by
  unfold FileStore.CreateEntity at h
  cases hv : (s.heap a).Validate now gen with
  | error msg =>
    simp only [hv] at h
    exact absurd (congrArg Prod.snd h) (by simp)
  | ok e1 =>
    simp only [hv] at h
    refine ⟨e1, rfl, ?_⟩
    cases hff : findFile s.entitiesDir (getEntityFilePath e1.Name) with
    | some nd =>
      rw [if_pos (by
        show (FileStore.EntityExists _ e1.Name) = true
        simp [FileStore.EntityExists, hff])] at h
      exact absurd (congrArg Prod.snd h) (by simp)
    | none =>
      rw [if_neg (by
        show ¬ (FileStore.EntityExists _ e1.Name) = true
        simp [FileStore.EntityExists, hff])] at h
      simp only [FileStore.saveEntityFile, hff] at h
      have h1 := congrArg Prod.fst h
      simp only at h1
      rw [← h1]
      exact ⟨rfl, rfl, rfl, rfl⟩

/-- C2 counterexample: after a successful CreateEntity of eX, a second
CreateEntity with an entity bearing the same name but failing validation
(its EntityType is empty) returns a validation error, not AlreadyExists. -/
theorem C2_counterexample :
    (examples.sC2a.CreateEntity 9 examples.genA 0).2 = none ∧
    (examples.sC2c.CreateEntity 9 examples.genA 1).2 =
      some (.validationFailed "entity validation failed") ∧
    (examples.sC2c.CreateEntity 9 examples.genA 1).2 ≠
      some (.alreadyExists "x") := by
  refine ⟨rfl, rfl, ?_⟩
  decide

/-- C2 (amended): after a successful CreateEntity, a second CreateEntity
with a separately allocated entity that passes validation and bears the
same name fails with AlreadyExists, and the failed call leaves the
directory and the value GetEntity returns for that name unchanged. -/
theorem C2_unique (s s1 : FileStore) (a b : Nat) (now1 now2 : Time)
    (gen1 gen2 : Nat → String) (e2 e2v : Entity)
    (h1 : s.CreateEntity now1 gen1 a = (s1, none))
    (hb : s1.heap b = e2)
    (hval2 : e2.Validate now2 gen2 = .ok e2v)
    (hname : e2.Name = (s1.heap a).Name)
    (hfresh : s1.entityCache e2.Name ≠ some b) :
    (s1.CreateEntity now2 gen2 b).2 = some (.alreadyExists e2.Name) ∧
    (s1.CreateEntity now2 gen2 b).1.entitiesDir = s1.entitiesDir ∧
    (s1.CreateEntity now2 gen2 b).1.GetEntityVal e2.Name =
      s1.GetEntityVal e2.Name := by
  obtain ⟨e1, hv1, hheap, hdir, hcache, _⟩ := CreateEntity_ok_inv s s1 a now1 gen1 h1
  have hname1 : (s1.heap a).Name = e1.Name := by rw [hheap, Function.update_same]
  have hname2 : e2.Name = e1.Name := hname.trans hname1
  have hvn : e2v.Name = e2.Name := (validate_ok_name now2 gen2 e2 e2v hval2).1
  have hex : findFile s1.entitiesDir (getEntityFilePath e2v.Name) =
      some (.file e1.ToJSON) := by
    rw [hvn, hname2, hdir]
    exact findFile_writeFile_self _ _ _
  have hsecond := CreateEntity_exists s1 b e2 e2v now2 gen2 hb hval2 _ hex
  have hc1 : s1.entityCache e2.Name = some a := by
    rw [hcache, hname2, Function.update_same]
  have hab : a ≠ b := fun hab => hfresh (hab ▸ hc1)
  have hcR : ({ s1 with heap := Function.update s1.heap b e2v } : FileStore).entityCache
      e2.Name = some a := hc1
  refine ⟨?_, ?_, ?_⟩
  · rw [hsecond, hvn]
  · rw [hsecond]
  · rw [hsecond]
    show FileStore.GetEntityVal { s1 with heap := Function.update s1.heap b e2v } e2.Name = _
    rw [GetEntityVal_hit _ e2.Name a hcR, GetEntityVal_hit s1 e2.Name a hc1]
    show Except.ok (Function.update s1.heap b e2v a) = _
    rw [Function.update_noteq hab]

/-- C2 witness: the amended theorem applied to the concrete store sC2one
holding eX, with the separately allocated valid duplicate eXdup. -/
theorem C2_witness :
    (examples.sC2one.CreateEntity 9 examples.genA 1).2 =
      some (.alreadyExists examples.eXdup.Name) ∧
    (examples.sC2one.CreateEntity 9 examples.genA 1).1.entitiesDir =
      examples.sC2one.entitiesDir ∧
    (examples.sC2one.CreateEntity 9 examples.genA 1).1.GetEntityVal
        examples.eXdup.Name = examples.sC2one.GetEntityVal examples.eXdup.Name :=
  C2_unique examples.sC2pre examples.sC2one 0 1 9 9 examples.genA examples.genA
    examples.eXdup examples.eXdup rfl rfl rfl rfl (by decide)

/-- C9: the cache stores the pointer itself, so mutating the entity behind
a cached address in place changes what every subsequent GetEntity for that
name returns, while the entity file on disk and everything loadEntityFile
reads from it stay untouched (cache and disk diverge until the next write
or cache clear). -/
theorem C9_cache_aliasing (s : FileStore) (name : String) (a : Nat) (id : String)
    (now2 : Time) (text : String) (hc : s.entityCache name = some a) :
    FileStore.GetEntityVal
        { s with heap := Function.update s.heap a ((s.heap a).AddObservation id now2 text) }
        name =
      .ok ((s.heap a).AddObservation id now2 text) ∧
    (s.heap a).AddObservation id now2 text ≠ s.heap a ∧
    FileStore.loadEntityFile
        { s with heap := Function.update s.heap a ((s.heap a).AddObservation id now2 text) }
        name =
      s.loadEntityFile name := by
  refine ⟨?_, ?_, rfl⟩
  · have hcR : ({ s with
        heap := Function.update s.heap a ((s.heap a).AddObservation id now2 text) } :
          FileStore).entityCache name = some a := hc
    rw [GetEntityVal_hit _ name a hcR]
    show Except.ok (Function.update s.heap a ((s.heap a).AddObservation id now2 text) a) = _
    rw [Function.update_same]
  · intro h
    have hlen := congrArg (fun e2 => e2.Observations.length) h
    simp [Entity.AddObservation] at hlen

/-- C9 witness: mutating the cached entity of sC2one changes the value
GetEntity returns while loadEntityFile is unaffected. -/
theorem C9_witness :
    FileStore.GetEntityVal
        { examples.sC2one with
          heap := Function.update examples.sC2one.heap 0
            ((examples.sC2one.heap 0).AddObservation examples.uuidB 11 "new") }
        "x" =
      .ok ((examples.sC2one.heap 0).AddObservation examples.uuidB 11 "new") ∧
    (examples.sC2one.heap 0).AddObservation examples.uuidB 11 "new" ≠
      examples.sC2one.heap 0 ∧
    FileStore.loadEntityFile
        { examples.sC2one with
          heap := Function.update examples.sC2one.heap 0
            ((examples.sC2one.heap 0).AddObservation examples.uuidB 11 "new") }
        "x" =
      examples.sC2one.loadEntityFile "x" :=
  C9_cache_aliasing examples.sC2one "x" 0 examples.uuidB 11 "new" rfl

theorem GetEntity_miss_err (s : FileStore) (name : String) (err : StoreError)
    (hc : s.entityCache name = none) (hl : s.loadEntityFile name = .error err) :
    s.GetEntity name = (s, .error err) := by
  unfold FileStore.GetEntity
  simp only [hc, hl]

theorem GetEntity_miss_ok (s : FileStore) (name : String) (e : Entity)
    (hc : s.entityCache name = none) (hl : s.loadEntityFile name = .ok e) :
    s.GetEntity name =
      ({ s with heap := Function.update s.heap s.nextAddr e,
                nextAddr := s.nextAddr + 1,
                entityCache := Function.update s.entityCache name (some s.nextAddr) },
       .ok s.nextAddr) := by
  unfold FileStore.GetEntity
  simp only [hc, hl]

theorem GetEntityVal_of_GetEntity (s s2 : FileStore) (name : String) (a : Nat)
    (h : s.GetEntity name = (s2, .ok a)) : s.GetEntityVal name = .ok (s2.heap a) := by
  unfold FileStore.GetEntityVal
  rw [h]

theorem GetEntityVal_of_GetEntity_err (s s2 : FileStore) (name : String)
    (err : StoreError) (h : s.GetEntity name = (s2, .error err)) :
    s.GetEntityVal name = .error err := by
  unfold FileStore.GetEntityVal
  rw [h]

theorem GetEntity_error_state (s s2 : FileStore) (name : String) (err : StoreError)
    (h : s.GetEntity name = (s2, .error err)) : s2 = s := by
  cases hc : s.entityCache name with
  | some a =>
    rw [GetEntity_hit s name a hc] at h
    exact absurd (congrArg Prod.snd h) (by simp)
  | none =>
    cases hl : s.loadEntityFile name with
    | error err2 =>
      rw [GetEntity_miss_err s name err2 hc hl] at h
      exact (congrArg Prod.fst h).symm
    | ok e =>
      rw [GetEntity_miss_ok s name e hc hl] at h
      exact absurd (congrArg Prod.snd h) (by simp)

theorem GetEntity_ok_state (s s2 : FileStore) (name : String) (a : Nat)
    (hWF : s.WF) (h : s.GetEntity name = (s2, .ok a)) :
    s2.entitiesDir = s.entitiesDir ∧ s.nextAddr ≤ s2.nextAddr ∧ s2.WF ∧
    (∀ b, b < s.nextAddr → s2.heap b = s.heap b) ∧ a < s2.nextAddr ∧
    (∀ n a2, s.entityCache n = some a2 → s2.entityCache n = some a2) ∧
    s2.entityCache name = some a := by
  cases hc : s.entityCache name with
  | some a2 =>
    rw [GetEntity_hit s name a2 hc] at h
    injection h with h1 h2
    injection h2 with h2
    have hs : s2 = s := h1.symm
    have ha : a2 = a := h2
    subst hs
    exact ⟨rfl, le_refl _, hWF, fun b _ => rfl, hWF name a (ha ▸ hc), fun n a3 h3 => h3,
      ha ▸ hc⟩
  | none =>
    cases hl : s.loadEntityFile name with
    | error err =>
      rw [GetEntity_miss_err s name err hc hl] at h
      exact absurd (congrArg Prod.snd h) (by simp)
    | ok e =>
      rw [GetEntity_miss_ok s name e hc hl] at h
      injection h with h1 h2
      injection h2 with h2
      have ha : s.nextAddr = a := h2
      have hs : s2 = { s with heap := Function.update s.heap s.nextAddr e,
                              nextAddr := s.nextAddr + 1,
                              entityCache := Function.update s.entityCache name
                                (some s.nextAddr) } := h1.symm
      subst hs
      refine ⟨rfl, Nat.le_succ _, ?_, ?_, ?_, ?_, ?_⟩
      · intro n b hb
        have hb2 : Function.update s.entityCache name (some s.nextAddr) n = some b := hb
        show b < s.nextAddr + 1
        by_cases hn : n = name
        · subst hn
          rw [Function.update_same] at hb2
          cases hb2
          exact Nat.lt_succ_self _
        · rw [Function.update_noteq hn] at hb2
          exact Nat.lt_succ_of_lt (hWF n b hb2)
      · intro b hb
        show Function.update s.heap s.nextAddr e b = s.heap b
        exact Function.update_noteq (Nat.ne_of_lt hb) e s.heap
      · rw [← ha]
        exact Nat.lt_succ_self _
      · intro n a3 h3
        show Function.update s.entityCache name (some s.nextAddr) n = some a3
        by_cases hn : n = name
        · subst hn
          rw [hc] at h3
          cases h3
        · rw [Function.update_noteq hn]
          exact h3
      · show Function.update s.entityCache name (some s.nextAddr) name = some a
        rw [Function.update_same, ha]

theorem GetEntity_frame (s s2 : FileStore) (name n : String) (a : Nat)
    (hWF : s.WF) (hne : n ≠ name) (h : s.GetEntity name = (s2, .ok a)) :
    s2.GetEntityVal n = s.GetEntityVal n := by
  cases hc : s.entityCache name with
  | some a2 =>
    rw [GetEntity_hit s name a2 hc] at h
    injection h with h1 h2
    rw [← h1]
  | none =>
    cases hl : s.loadEntityFile name with
    | error err =>
      rw [GetEntity_miss_err s name err hc hl] at h
      exact absurd (congrArg Prod.snd h) (by simp)
    | ok e =>
      rw [GetEntity_miss_ok s name e hc hl] at h
      injection h with h1 h2
      have hd2 : s2.entitiesDir = s.entitiesDir := by rw [← h1]
      have hh2 : s2.heap = Function.update s.heap s.nextAddr e := by rw [← h1]
      have hn2 : s2.nextAddr = s.nextAddr + 1 := by rw [← h1]
      have hc2f : s2.entityCache = Function.update s.entityCache name (some s.nextAddr) := by
        rw [← h1]
      cases hc2 : s.entityCache n with
      | some b =>
        have hcR : s2.entityCache n = some b := by
          rw [hc2f, Function.update_noteq hne]
          exact hc2
        rw [GetEntityVal_hit s2 n b hcR, GetEntityVal_hit s n b hc2, hh2,
          Function.update_noteq (Nat.ne_of_lt (hWF n b hc2)) e s.heap]
      | none =>
        have hcR : s2.entityCache n = none := by
          rw [hc2f, Function.update_noteq hne]
          exact hc2
        have hld : s2.loadEntityFile n = s.loadEntityFile n := by
          unfold FileStore.loadEntityFile
          rw [hd2]
        cases hl2 : s.loadEntityFile n with
        | error err2 =>
          rw [GetEntityVal_of_GetEntity_err s2 s2 n err2
              (GetEntity_miss_err s2 n err2 hcR (hld.trans hl2)),
            GetEntityVal_of_GetEntity_err s s n err2 (GetEntity_miss_err s n err2 hc2 hl2)]
        | ok e2 =>
          rw [GetEntityVal_of_GetEntity _ _ n _
              (GetEntity_miss_ok s2 n e2 hcR (hld.trans hl2)),
            GetEntityVal_of_GetEntity s _ n _ (GetEntity_miss_ok s n e2 hc2 hl2)]
          show Except.ok (Function.update s2.heap s2.nextAddr e2 s2.nextAddr) =
            Except.ok (Function.update s.heap s.nextAddr e2 s.nextAddr)
          rw [Function.update_same, Function.update_same]

theorem trim_append (fn : String) (h : hasSuffix fn ".json" = true) :
    trimSuffix fn ".json" ++ ".json" = fn := by
  obtain ⟨pre, hpre⟩ := List.isSuffixOf_iff_suffix.mp h
  apply String.ext
  rw [String.data_append]
  unfold trimSuffix
  rw [if_pos h]
  show (fn.toList.take (fn.toList.length - (".json" : String).toList.length)) ++
    (".json" : String).data = fn.data
  have h5 : (".json" : String).toList.length = 5 := by decide
  rw [h5, ← hpre, List.length_append, h5]
  rw [Nat.add_sub_cancel]
  rw [List.take_left' rfl]
  exact hpre

theorem stem_inj (fn1 fn2 : String) (h1 : hasSuffix fn1 ".json" = true)
    (h2 : hasSuffix fn2 ".json" = true)
    (heq : trimSuffix fn1 ".json" = trimSuffix fn2 ".json") : fn1 = fn2 := by
  rw [← trim_append fn1 h1, ← trim_append fn2 h2, heq]

theorem listingSpec_congr (s s2 : FileStore) (ty : String) (stem : String)
    (hframe : ∀ n, n ≠ stem → s2.GetEntityVal n = s.GetEntityVal n)
    (p : String × FsNode)
    (hne : hasSuffix p.1 ".json" = true → trimSuffix p.1 ".json" ≠ stem) :
    listingSpec s2 ty p = listingSpec s ty p := by
  unfold listingSpec
  by_cases hd : p.2.isDir = true
  · simp [hd]
  · have hd2 : p.2.isDir = false := by simpa using hd
    by_cases hs : hasSuffix p.1 ".json" = true
    · simp only [hd2, hs, Bool.false_eq_true, if_false, if_true]
      rw [hframe _ (hne hs)]
    · have hs2 : hasSuffix p.1 ".json" = false := by simpa using hs
      simp [hd2, hs2]

theorem listLoop_spec (ty : String) :
    ∀ (l : List (String × FsNode)) (s : FileStore) (acc : List Nat),
      s.WF → (l.map Prod.fst).Nodup → (∀ b ∈ acc, b < s.nextAddr) →
      (listLoop ty l s acc).1.entitiesDir = s.entitiesDir ∧
      s.nextAddr ≤ (listLoop ty l s acc).1.nextAddr ∧
      (listLoop ty l s acc).1.WF ∧
      (∀ b, b < s.nextAddr → (listLoop ty l s acc).1.heap b = s.heap b) ∧
      (∀ b ∈ (listLoop ty l s acc).2, b < (listLoop ty l s acc).1.nextAddr) ∧
      (∀ n a2, s.entityCache n = some a2 →
        (listLoop ty l s acc).1.entityCache n = some a2) ∧
      ((listLoop ty l s acc).2.map (listLoop ty l s acc).1.heap =
        acc.map s.heap ++ l.filterMap (listingSpec s ty)) ∧
      (∀ p ∈ l, p.2.isDir = false → hasSuffix p.1 ".json" = true →
        (∃ e, s.GetEntityVal (trimSuffix p.1 ".json") = .ok e) →
        ((listLoop ty l s acc).1.entityCache (trimSuffix p.1 ".json")).isSome = true)
  | [], s, acc, hWF, hnd, hacc => by
    refine ⟨rfl, le_refl _, hWF, fun b _ => rfl, hacc, fun n a2 h2 => h2, ?_, ?_⟩
    · simp [listLoop]
    · intro p hp
      cases hp
  | (fn, nd) :: rest, s, acc, hWF, hnd, hacc => by
    have hnd1 : fn ∉ rest.map Prod.fst := (List.nodup_cons.mp hnd).1
    have hnd2 : (rest.map Prod.fst).Nodup := (List.nodup_cons.mp hnd).2
    by_cases hdir : nd.isDir = true
    · have hstep : listLoop ty ((fn, nd) :: rest) s acc = listLoop ty rest s acc := by
        simp [listLoop, hdir]
      have hhead : listingSpec s ty (fn, nd) = none := by
        unfold listingSpec
        rw [if_pos hdir]
      obtain ⟨i1, i2, i3, i4, i5, i6, i7, i8⟩ := listLoop_spec ty rest s acc hWF hnd2 hacc
      rw [hstep]
      refine ⟨i1, i2, i3, i4, i5, i6, ?_, ?_⟩
      · rw [i7, List.filterMap_cons, hhead]
      · intro p hp hpd hps hpe
        rcases List.mem_cons.mp hp with he | hm
        · subst he
          simp only [] at hpd
          rw [hdir] at hpd
          exact Bool.noConfusion hpd
        · exact i8 p hm hpd hps hpe
    · by_cases hsuf : hasSuffix fn ".json" = true
      · rcases hg : s.GetEntity (trimSuffix fn ".json") with ⟨s2, r⟩
        have hstemne : ∀ p, p ∈ rest → hasSuffix p.1 ".json" = true →
            trimSuffix p.1 ".json" ≠ trimSuffix fn ".json" := by
          intro p hp hps heq
          exact hnd1 (stem_inj p.1 fn hps hsuf heq ▸ List.mem_map_of_mem Prod.fst hp)
        cases r with
        | error err =>
          have hs2 : s2 = s := GetEntity_error_state s s2 _ err hg
          rw [hs2] at hg
          have hstep : listLoop ty ((fn, nd) :: rest) s acc = listLoop ty rest s acc := by
            simp [listLoop, hdir, hsuf, hg]
          have hhead : listingSpec s ty (fn, nd) = none := by
            unfold listingSpec
            rw [if_neg (by simp [hdir]), if_pos hsuf,
              GetEntityVal_of_GetEntity_err s s _ err hg]
          obtain ⟨i1, i2, i3, i4, i5, i6, i7, i8⟩ := listLoop_spec ty rest s acc hWF hnd2 hacc
          rw [hstep]
          refine ⟨i1, i2, i3, i4, i5, i6, ?_, ?_⟩
          · rw [i7, List.filterMap_cons, hhead]
          · intro p hp hpd hps hpe
            rcases List.mem_cons.mp hp with he | hm
            · subst he
              rcases hpe with ⟨e, hpe⟩
              simp only [] at hpe
              rw [GetEntityVal_of_GetEntity_err s s _ err hg] at hpe
              cases hpe
            · exact i8 p hm hpd hps hpe
        | ok a =>
          obtain ⟨f1, f2, f3, f4, f5, f6, f7⟩ := GetEntity_ok_state s s2 _ a hWF hg
          have hframe : ∀ n, n ≠ trimSuffix fn ".json" →
              s2.GetEntityVal n = s.GetEntityVal n :=
            fun n hn => GetEntity_frame s s2 _ n a hWF hn hg
          have hval : s.GetEntityVal (trimSuffix fn ".json") = .ok (s2.heap a) :=
            GetEntityVal_of_GetEntity s s2 _ a hg
          have haccmap : acc.map s2.heap = acc.map s.heap :=
            List.map_congr_left fun b hb => f4 b (hacc b hb)
          have hrestmap : rest.filterMap (listingSpec s2 ty) =
              rest.filterMap (listingSpec s ty) :=
            List.filterMap_congr fun p hp =>
              listingSpec_congr s s2 ty _ hframe p (fun hps => hstemne p hp hps)
          have hacc2 : ∀ b ∈ acc, b < s2.nextAddr :=
            fun b hb => Nat.lt_of_lt_of_le (hacc b hb) f2
          by_cases hty : (decide (ty = "") || decide ((s2.heap a).EntityType = ty)) = true
          · have htyP : ty = "" ∨ (s2.heap a).EntityType = ty := by simpa using hty
            have hstep : listLoop ty ((fn, nd) :: rest) s acc =
                listLoop ty rest s2 (acc ++ [a]) := by
              simp only [listLoop, hg]
              rw [if_neg (by simp [hdir]), if_pos hsuf, if_pos hty]
            have hhead : listingSpec s ty (fn, nd) = some (s2.heap a) := by
              unfold listingSpec
              rw [if_neg (by simp [hdir]), if_pos hsuf]
              simp only [hval]
              rw [if_pos htyP]
            have haccb : ∀ b ∈ acc ++ [a], b < s2.nextAddr := by
              intro b hb
              rcases List.mem_append.mp hb with hb | hb
              · exact hacc2 b hb
              · rw [List.mem_singleton.mp hb]
                exact f5
            obtain ⟨i1, i2, i3, i4, i5, i6, i7, i8⟩ :=
              listLoop_spec ty rest s2 (acc ++ [a]) f3 hnd2 haccb
            rw [hstep]
            refine ⟨i1.trans f1, Nat.le_trans f2 i2, i3, ?_, i5, fun n a2 h2 => i6 n a2 (f6 n a2 h2), ?_, ?_⟩
            · intro b hb
              exact (i4 b (Nat.lt_of_lt_of_le hb f2)).trans (f4 b hb)
            · rw [i7, List.filterMap_cons, hhead, List.map_append, haccmap, hrestmap]
              simp
            · intro p hp hpd hps hpe
              rcases List.mem_cons.mp hp with he | hm
              · rw [he]
                have := i6 _ a f7
                simp [this]
              · rcases hpe with ⟨e, hpe⟩
                refine i8 p hm hpd hps ⟨e, ?_⟩
                rw [hframe _ (hstemne p hm hps)]
                exact hpe
          · have htyN : ¬ (ty = "" ∨ (s2.heap a).EntityType = ty) := by
              simpa using hty
            have hstep : listLoop ty ((fn, nd) :: rest) s acc =
                listLoop ty rest s2 acc := by
              simp only [listLoop, hg]
              rw [if_neg (by simp [hdir]), if_pos hsuf, if_neg hty]
            have hhead : listingSpec s ty (fn, nd) = none := by
              unfold listingSpec
              rw [if_neg (by simp [hdir]), if_pos hsuf]
              simp only [hval]
              rw [if_neg htyN]
            obtain ⟨i1, i2, i3, i4, i5, i6, i7, i8⟩ :=
              listLoop_spec ty rest s2 acc f3 hnd2 hacc2
            rw [hstep]
            refine ⟨i1.trans f1, Nat.le_trans f2 i2, i3, ?_, i5, fun n a2 h2 => i6 n a2 (f6 n a2 h2), ?_, ?_⟩
            · intro b hb
              exact (i4 b (Nat.lt_of_lt_of_le hb f2)).trans (f4 b hb)
            · rw [i7, List.filterMap_cons, hhead, haccmap, hrestmap]
            · intro p hp hpd hps hpe
              rcases List.mem_cons.mp hp with he | hm
              · rw [he]
                have := i6 _ a f7
                simp [this]
              · rcases hpe with ⟨e, hpe⟩
                refine i8 p hm hpd hps ⟨e, ?_⟩
                rw [hframe _ (hstemne p hm hps)]
                exact hpe
      · have hstep : listLoop ty ((fn, nd) :: rest) s acc = listLoop ty rest s acc := by
          simp [listLoop, hdir, hsuf]
        have hhead : listingSpec s ty (fn, nd) = none := by
          unfold listingSpec
          rw [if_neg (by simp [hdir]), if_neg (by simp [hsuf])]
        obtain ⟨i1, i2, i3, i4, i5, i6, i7, i8⟩ := listLoop_spec ty rest s acc hWF hnd2 hacc
        rw [hstep]
        refine ⟨i1, i2, i3, i4, i5, i6, ?_, ?_⟩
        · rw [i7, List.filterMap_cons, hhead]
        · intro p hp hpd hps hpe
          rcases List.mem_cons.mp hp with he | hm
          · subst he
            simp only [] at hps
            exact absurd hps hsuf
          · exact i8 p hm hpd hps hpe

theorem ReadDir_perm (s : FileStore) : s.ReadDir.Perm s.entitiesDir :=
  List.perm_insertionSort _ _

theorem ReadDir_nodup (s : FileStore) (hnd : (s.entitiesDir.map Prod.fst).Nodup) :
    (s.ReadDir.map Prod.fst).Nodup :=
  ((ReadDir_perm s).map Prod.fst).nodup_iff.mpr hnd

theorem ListEntitiesVals_eq (s : FileStore) (ty : String) (hWF : s.WF)
    (hnd : (s.entitiesDir.map Prod.fst).Nodup) :
    s.ListEntitiesVals ty = s.ReadDir.filterMap (listingSpec s ty) := by
  obtain ⟨i1, i2, i3, i4, i5, i6, i7, i8⟩ :=
    listLoop_spec ty s.ReadDir s [] hWF (ReadDir_nodup s hnd) (by intro b hb; cases hb)
  unfold FileStore.ListEntitiesVals FileStore.ListEntities
  simpa using i7

/-- C8: ListEntities returns exactly the entities of the non-directory
.json entries whose stems load successfully through GetEntity (evaluated
in the pre-listing state), restricted by the type filter; entries that
fail to load are skipped silently and never fail the whole listing; the
loaded entries warm the cache, and existing cache entries survive. -/
theorem C8_list_entities (s : FileStore) (ty : String) (hWF : s.WF)
    (hnd : (s.entitiesDir.map Prod.fst).Nodup) :
    s.ListEntitiesVals ty = s.ReadDir.filterMap (listingSpec s ty) ∧
    (∀ n a, s.entityCache n = some a →
      (s.ListEntities ty).1.entityCache n = some a) ∧
    (∀ p ∈ s.ReadDir, p.2.isDir = false → hasSuffix p.1 ".json" = true →
      (∃ e, s.GetEntityVal (trimSuffix p.1 ".json") = .ok e) →
      ((s.ListEntities ty).1.entityCache (trimSuffix p.1 ".json")).isSome = true) := by
  obtain ⟨i1, i2, i3, i4, i5, i6, i7, i8⟩ :=
    listLoop_spec ty s.ReadDir s [] hWF (ReadDir_nodup s hnd) (by intro b hb; cases hb)
  exact ⟨ListEntitiesVals_eq s ty hWF hnd, i6, i8⟩

/-- C8 witness: on the concrete three-entity store (types guideline,
guideline, pattern), the characterization holds and the guideline filter
returns exactly the two guideline entities, in file-name order. -/
theorem C8_witness :
    examples.sList.ListEntitiesVals "guideline" =
      examples.sList.ReadDir.filterMap (listingSpec examples.sList "guideline") ∧
    examples.sList.ListEntitiesVals "guideline" = [examples.eA, examples.eB] := by
  refine ⟨(C8_list_entities examples.sList "guideline"
    (fun n a h => Option.noConfusion h) (by decide)).1, ?_⟩
  decide

theorem lexLt_irrefl : ∀ x : List Char, lexLt x x = false
  | [] => rfl
  | a :: as => by simp [lexLt, lt_irrefl, lexLt_irrefl as]

theorem lexLt_asymm : ∀ x y : List Char, lexLt x y = true → lexLt y x = false
  | [], [], h => by simp [lexLt] at h
  | [], b :: bs, _ => by simp [lexLt]
  | a :: as, [], h => by simp [lexLt] at h
  | a :: as, b :: bs, h => by
    simp only [lexLt] at h ⊢
    by_cases hab : a < b
    · rw [if_neg (lt_asymm hab), if_pos hab]
    · by_cases hba : b < a
      · rw [if_neg hab, if_pos hba] at h
        cases h
      · have heq : a = b := le_antisymm (not_lt.mp hba) (not_lt.mp hab)
        subst heq
        rw [if_neg hab, if_neg hba] at h
        rw [if_neg hab, if_neg hba]
        exact lexLt_asymm as bs h

theorem lexLt_trans : ∀ x y z : List Char,
    lexLt x y = true → lexLt y z = true → lexLt x z = true
  | [], [], _, h, _ => by simp [lexLt] at h
  | [], _ :: _, [], _, h2 => by simp [lexLt] at h2
  | [], _ :: _, _ :: _, _, _ => by simp [lexLt]
  | _ :: _, [], _, h, _ => by simp [lexLt] at h
  | _ :: _, _ :: _, [], _, h2 => by simp [lexLt] at h2
  | a :: as, b :: bs, c :: cs, h, h2 => by
    simp only [lexLt] at h h2 ⊢
    by_cases hab : a < b
    · by_cases hbc : b < c
      · rw [if_pos (lt_trans hab hbc)]
      · by_cases hcb : c < b
        · rw [if_neg hbc, if_pos hcb] at h2
          cases h2
        · have heq : b = c := le_antisymm (not_lt.mp hcb) (not_lt.mp hbc)
          subst heq
          rw [if_pos hab]
    · by_cases hba : b < a
      · rw [if_neg hab, if_pos hba] at h
        cases h
      · have heq : a = b := le_antisymm (not_lt.mp hba) (not_lt.mp hab)
        subst heq
        rw [if_neg hab, if_neg hba] at h
        by_cases hbc : a < c
        · rw [if_pos hbc]
        · by_cases hcb : c < a
          · rw [if_neg hbc, if_pos hcb] at h2
            cases h2
          · have heq2 : a = c := le_antisymm (not_lt.mp hcb) (not_lt.mp hbc)
            subst heq2
            rw [if_neg hbc, if_neg hbc] at h2
            rw [if_neg hbc, if_neg hbc]
            exact lexLt_trans as bs cs h h2

theorem lexLt_eq_of_not : ∀ x y : List Char,
    lexLt x y = false → lexLt y x = false → x = y
  | [], [], _, _ => rfl
  | [], b :: bs, h, _ => by simp [lexLt] at h
  | a :: as, [], _, h2 => by simp [lexLt] at h2
  | a :: as, b :: bs, h, h2 => by
    simp only [lexLt] at h h2
    by_cases hab : a < b
    · rw [if_pos hab] at h
      cases h
    · by_cases hba : b < a
      · rw [if_neg hab, if_pos hba] at h
        rw [if_pos hba] at h2
        cases h2
      · have heq : a = b := le_antisymm (not_lt.mp hba) (not_lt.mp hab)
        subst heq
        rw [if_neg hab, if_neg hab] at h h2
        rw [lexLt_eq_of_not as bs h h2]

theorem strLe_total (a b : String) : strLe a b ∨ strLe b a := by
  unfold strLe
  cases hv : lexLt b.toList a.toList with
  | false => exact Or.inl rfl
  | true => exact Or.inr (lexLt_asymm _ _ hv)

theorem strLe_trans {a b c : String} (h1 : strLe a b) (h2 : strLe b c) : strLe a c := by
  unfold strLe at h1 h2 ⊢
  cases hv : lexLt c.toList a.toList with
  | false => rfl
  | true =>
    exfalso
    cases hv2 : lexLt c.toList b.toList with
    | true =>
      rw [hv2] at h2
      cases h2
    | false =>
      cases hv3 : lexLt b.toList c.toList with
      | true =>
        have := lexLt_trans _ _ _ hv3 hv
        rw [this] at h1
        cases h1
      | false =>
        have heq : b.toList = c.toList := lexLt_eq_of_not _ _ hv3 hv2
        rw [← heq] at hv
        rw [hv] at h1
        cases h1

theorem hasSuffix_append (x : String) : hasSuffix (x ++ ".json") ".json" = true := by
  unfold hasSuffix
  apply List.isSuffixOf_iff_suffix.mpr
  show (".json" : String).toList <:+ (x ++ ".json").data
  rw [String.data_append]
  exact List.suffix_append x.data _

theorem trim_of_append (x : String) : trimSuffix (x ++ ".json") ".json" = x := by
  unfold trimSuffix
  rw [if_pos (hasSuffix_append x)]
  apply String.ext
  show ((x ++ ".json").toList.take
    ((x ++ ".json").toList.length - (".json" : String).toList.length)) = x.data
  have h5 : (".json" : String).toList.length = 5 := by decide
  rw [h5]
  show ((x ++ ".json").data.take ((x ++ ".json").data.length - 5)) = x.data
  rw [String.data_append, List.length_append, (by decide : (".json" : String).data.length = 5),
    Nat.add_sub_cancel]
  exact List.take_left' rfl

theorem GetEntityVal_name (s : FileStore) (name : String) (e : Entity)
    (hfile : ∀ fn j e2, findFile s.entitiesDir fn = some (.file j) →
      Entity.FromJSON j = .ok e2 → e2.Name ++ ".json" = fn)
    (hcache : ∀ n a, s.entityCache n = some a → (s.heap a).Name = n)
    (h : s.GetEntityVal name = .ok e) : e.Name = name := by
  cases hc : s.entityCache name with
  | some a =>
    rw [GetEntityVal_hit s name a hc] at h
    injection h with h
    rw [← h]
    exact hcache name a hc
  | none =>
    cases hl : s.loadEntityFile name with
    | error err =>
      rw [GetEntityVal_of_GetEntity_err s s name err (GetEntity_miss_err s name err hc hl)]
        at h
      cases h
    | ok e2 =>
      have hval := GetEntityVal_of_GetEntity s _ name _ (GetEntity_miss_ok s name e2 hc hl)
      rw [hval] at h
      injection h with h
      have h3 : Function.update s.heap s.nextAddr e2 s.nextAddr = e := h
      rw [Function.update_same] at h3
      subst h3
      unfold FileStore.loadEntityFile at hl
      cases hff : findFile s.entitiesDir (getEntityFilePath name) with
      | none =>
        simp only [hff] at hl
        exact Except.noConfusion hl
      | some nd =>
        simp only [hff] at hl
        cases nd with
        | dir => exact Except.noConfusion hl
        | corrupt => exact Except.noConfusion hl
        | file j =>
          cases hd : Entity.FromJSON j with
          | error msg =>
            simp only [hd] at hl
            exact Except.noConfusion hl
          | ok e3 =>
            simp only [hd] at hl
            injection hl with hl
            subst hl
            have hn := hfile (getEntityFilePath name) j e3 hff hd
            have := congrArg (fun z => trimSuffix z ".json") hn
            simpa [trim_of_append, getEntityFilePath] using this

theorem listingSpec_name (s : FileStore) (ty : String) (p : String × FsNode) (e : Entity)
    (hfile : ∀ fn j e2, findFile s.entitiesDir fn = some (.file j) →
      Entity.FromJSON j = .ok e2 → e2.Name ++ ".json" = fn)
    (hcache : ∀ n a, s.entityCache n = some a → (s.heap a).Name = n)
    (h : listingSpec s ty p = some e) : e.Name ++ ".json" = p.1 := by
  unfold listingSpec at h
  by_cases hd : p.2.isDir = true
  · rw [if_pos hd] at h
    cases h
  · rw [if_neg hd] at h
    by_cases hs : hasSuffix p.1 ".json" = true
    · rw [if_pos hs] at h
      cases hv : s.GetEntityVal (trimSuffix p.1 ".json") with
      | error err =>
        simp only [hv] at h
        exact Option.noConfusion h
      | ok e2 =>
        simp only [hv] at h
        have he2 : e2 = e := by
          by_cases hty : ty = "" ∨ e2.EntityType = ty
          · rw [if_pos hty] at h
            injection h
          · rw [if_neg hty] at h
            cases h
        subst he2
        rw [GetEntityVal_name s _ e2 hfile hcache hv]
        exact trim_append p.1 hs
    · rw [if_neg hs] at h
      cases h

theorem foldl_append_flatMap {α β : Type} (g : α → List β) :
    ∀ (l : List α) (acc : List β),
      l.foldl (fun acc2 x => acc2 ++ g x) acc = acc ++ l.flatMap g
  | [], acc => by simp
  | x :: xs, acc => by
    simp [foldl_append_flatMap g xs, List.flatMap_cons, List.append_assoc]

/-- C10: under the natural coherence of the store (decoded entity files
and cached entities carry the name of their file stem, file names are
duplicate-free, cached addresses are allocated), ListEntities returns
entities in byte-wise lexicographic order of their file names (entity
name plus .json), because the directory is enumerated in sorted order;
consequently the store-level SearchObservations returns the flattened
per-entity results grouped by entity in that same order, observation
order preserved within each entity. -/
theorem C10_listing_order (s : FileStore) (ty q : String) (hWF : s.WF)
    (hnd : (s.entitiesDir.map Prod.fst).Nodup)
    (hfile : ∀ fn j e2, findFile s.entitiesDir fn = some (.file j) →
      Entity.FromJSON j = .ok e2 → e2.Name ++ ".json" = fn)
    (hcache : ∀ n a, s.entityCache n = some a → (s.heap a).Name = n) :
    List.Sorted strLe ((s.ListEntitiesVals ty).map (fun e => e.Name ++ ".json")) ∧
    (s.SearchObservations q ty).2 =
      (s.ListEntitiesVals ty).flatMap (fun e =>
        (e.SearchObservations q).map (fun o =>
          { EntityName := e.Name, EntityType := e.EntityType, Observation := o })) := by
  constructor
  · rw [ListEntitiesVals_eq s ty hWF hnd]
    have hsort : List.Sorted (fun x y : String × FsNode => strLe x.1 y.1) s.ReadDir := by
      letI : IsTotal (String × FsNode) (fun x y => strLe x.1 y.1) :=
        ⟨fun x y => strLe_total x.1 y.1⟩
      letI : IsTrans (String × FsNode) (fun x y => strLe x.1 y.1) :=
        ⟨fun x y z hx hy => strLe_trans hx hy⟩
      exact List.sorted_insertionSort _ _
    apply List.pairwise_map.mpr
    apply List.pairwise_filterMap.mpr
    apply hsort.imp ?_
    intro p q2 hpq e1 he1 e2 he2
    rw [Option.mem_def] at he1 he2
    rw [listingSpec_name s ty p e1 hfile hcache he1,
      listingSpec_name s ty q2 e2 hfile hcache he2]
    exact hpq
  · unfold FileStore.SearchObservations FileStore.ListEntitiesVals
    show ((s.ListEntities ty).2.foldl
        (fun acc a => acc ++
          (((s.ListEntities ty).1.heap a).SearchObservations q).map
            (fun o => ({ EntityName := ((s.ListEntities ty).1.heap a).Name,
                         EntityType := ((s.ListEntities ty).1.heap a).EntityType,
                         Observation := o } : SearchResult))) []) =
      ((s.ListEntities ty).2.map (s.ListEntities ty).1.heap).flatMap (fun e =>
        (e.SearchObservations q).map (fun o =>
          ({ EntityName := e.Name, EntityType := e.EntityType,
             Observation := o } : SearchResult)))
    rw [foldl_append_flatMap, List.nil_append, List.flatMap_map]

/-- C10 witness: on the concrete three-entity store, listing with no
filter returns entities in file-name order a.json, b.json, c.json; the
store-level search flattens per-entity results in the same order, and the
query commit returns exactly the one observation of entity a. -/
theorem C10_witness :
    List.Sorted strLe
      ((examples.sList.ListEntitiesVals "").map (fun e => e.Name ++ ".json")) ∧
    (examples.sList.SearchObservations "commit" "").2 =
      (examples.sList.ListEntitiesVals "").flatMap (fun e =>
        (e.SearchObservations "commit").map (fun o =>
          ({ EntityName := e.Name, EntityType := e.EntityType,
             Observation := o } : SearchResult))) ∧
    (examples.sList.SearchObservations "commit" "").2 =
      [{ EntityName := "a", EntityType := "guideline",
         Observation := examples.obsCommit }] := by
  have hfile : ∀ fn j e2, findFile examples.sList.entitiesDir fn = some (.file j) →
      Entity.FromJSON j = .ok e2 → e2.Name ++ ".json" = fn := by
    intro fn j e2 h1 h2
    simp only [examples.sList, findFile] at h1
    split_ifs at h1 with h3 h4 h5
    · injection h1 with h1
      injection h1 with h1
      subst h1
      rw [entity_fromJSON_toJSON] at h2
      injection h2 with h2
      subst h2
      rw [← h3]
      decide
    · injection h1 with h1
      injection h1 with h1
      subst h1
      rw [entity_fromJSON_toJSON] at h2
      injection h2 with h2
      subst h2
      rw [← h4]
      decide
    · injection h1 with h1
      injection h1 with h1
      subst h1
      rw [entity_fromJSON_toJSON] at h2
      injection h2 with h2
      subst h2
      rw [← h5]
      decide
  have h := C10_listing_order examples.sList "" "commit"
    (fun n a hh => Option.noConfusion hh) (by decide) hfile
    (fun n a hh => Option.noConfusion hh)
  exact ⟨h.1, h.2, by decide⟩

end filestore

namespace lockmodel

theorem inv_init (n m v0 : Nat) : Inv (Config.init n m v0) := by
  refine ⟨⟨fun i => rfl, fun j => rfl⟩, ?_, ?_⟩
  · intro ht
    exact FileBytes.noConfusion ht
  · intro j
    intro hobs
    exact Option.noConfusion hobs

theorem inv_step {n m : Nat} {c c2 : Config n m} (h : Step c c2) (hInv : Inv c) :
    Inv c2 := by
  obtain ⟨hL, hT, hO⟩ := hInv
  cases h with
  | wLock i hw hl =>
    simp only [hl] at hL
    unfold Inv
    dsimp only
    refine ⟨⟨⟨i, ?_, ?_⟩, fun j => hL.2 j⟩, ?_, fun j => hO j⟩
    · rw [Function.update_same]
      rfl
    · intro i2 h2
      by_cases hi : i2 = i
      · exact hi
      · rw [Function.update_noteq hi] at h2
        rw [hL.1 i2] at h2
        exact Bool.noConfusion h2
    · intro ht
      exfalso
      rcases hT ht with ⟨i3, hi3⟩
      have h3 := hL.1 i3
      rw [hi3] at h3
      exact Bool.noConfusion h3
  | wBegin i hw =>
    have hwh : (c.writers i).holds = true := by rw [hw]; rfl
    cases hcl : c.lock with
    | free =>
      simp only [hcl] at hL
      rw [hL.1 i] at hwh
      exact Bool.noConfusion hwh
    | readers hs =>
      simp only [hcl] at hL
      rw [hL.1 i] at hwh
      exact Bool.noConfusion hwh
    | writer =>
      simp only [hcl] at hL
      obtain ⟨⟨i0, hi0, huniq⟩, hrd⟩ := hL
      have hii0 : i = i0 := huniq i hwh
      subst hii0
      unfold Inv
      dsimp only
      refine ⟨⟨⟨i, ?_, ?_⟩, hrd⟩, ?_, fun j => hO j⟩
      · rw [Function.update_same]
        rfl
      · intro i3 h3
        by_cases hi : i3 = i
        · exact hi
        · rw [Function.update_noteq hi] at h3
          exact huniq i3 h3
      · intro _
        exact ⟨i, Function.update_same _ _ _⟩
  | wFinish i v hw =>
    have hwh : (c.writers i).holds = true := by rw [hw]; rfl
    cases hcl : c.lock with
    | free =>
      simp only [hcl] at hL
      rw [hL.1 i] at hwh
      exact Bool.noConfusion hwh
    | readers hs =>
      simp only [hcl] at hL
      rw [hL.1 i] at hwh
      exact Bool.noConfusion hwh
    | writer =>
      simp only [hcl] at hL
      obtain ⟨⟨i0, hi0, huniq⟩, hrd⟩ := hL
      have hii0 : i = i0 := huniq i hwh
      subst hii0
      unfold Inv
      dsimp only
      refine ⟨⟨⟨i, ?_, ?_⟩, hrd⟩, ?_, fun j => hO j⟩
      · rw [Function.update_same]
        rfl
      · intro i3 h3
        by_cases hi : i3 = i
        · exact hi
        · rw [Function.update_noteq hi] at h3
          exact huniq i3 h3
      · intro ht
        exact FileBytes.noConfusion ht
  | wUnlock i hw =>
    have hwh : (c.writers i).holds = true := by rw [hw]; rfl
    cases hcl : c.lock with
    | free =>
      simp only [hcl] at hL
      rw [hL.1 i] at hwh
      exact Bool.noConfusion hwh
    | readers hs =>
      simp only [hcl] at hL
      rw [hL.1 i] at hwh
      exact Bool.noConfusion hwh
    | writer =>
      simp only [hcl] at hL
      obtain ⟨⟨i0, hi0, huniq⟩, hrd⟩ := hL
      have hii0 : i = i0 := huniq i hwh
      subst hii0
      have hnotorn : c.file ≠ .torn := by
        intro ht
        rcases hT ht with ⟨i3, hi3⟩
        have h3 : (c.writers i3).holds = true := by rw [hi3]; rfl
        have hi3i : i3 = i := huniq i3 h3
        rw [hi3i, hw] at hi3
        exact WriterPc.noConfusion hi3
      unfold Inv
      dsimp only
      refine ⟨⟨?_, hrd⟩, ?_, fun j => hO j⟩
      · intro i2
        by_cases hi : i2 = i
        · rw [hi, Function.update_same]
          rfl
        · rw [Function.update_noteq hi]
          cases h2 : (c.writers i2).holds
          · rfl
          · exact absurd (huniq i2 h2) hi
      · intro ht
        exact absurd ht hnotorn
  | rLockFree j hr hl =>
    simp only [hl] at hL
    unfold Inv
    dsimp only
    refine ⟨⟨hL.1, ?_, Finset.singleton_ne_empty j⟩, hT, ?_⟩
    · intro j2
      by_cases hj : j2 = j
      · subst hj
        rw [Function.update_same]
        simp [ReaderPc.holds]
      · rw [Function.update_noteq hj]
        rw [hL.2 j2]
        simp [hj]
    · intro j2
      by_cases hj : j2 = j
      · subst hj
        rw [Function.update_same]
        intro hobs
        exact Option.noConfusion hobs
      · rw [Function.update_noteq hj]
        exact hO j2
  | rLockShared j hs hr hl =>
    simp only [hl] at hL
    obtain ⟨hwr, hmem, hne⟩ := hL
    unfold Inv
    dsimp only
    refine ⟨⟨hwr, ?_, ?_⟩, hT, ?_⟩
    · intro j2
      by_cases hj : j2 = j
      · subst hj
        rw [Function.update_same]
        simp [ReaderPc.holds, Finset.mem_insert]
      · rw [Function.update_noteq hj]
        rw [hmem j2]
        simp [Finset.mem_insert, hj]
    · exact Finset.insert_ne_empty j hs
    · intro j2
      by_cases hj : j2 = j
      · subst hj
        rw [Function.update_same]
        intro hobs
        exact Option.noConfusion hobs
      · rw [Function.update_noteq hj]
        exact hO j2
  | rRead j hr =>
    have hrh : (c.readers j).holds = true := by rw [hr]; rfl
    cases hcl : c.lock with
    | free =>
      simp only [hcl] at hL
      rw [hL.2 j] at hrh
      exact Bool.noConfusion hrh
    | writer =>
      simp only [hcl] at hL
      rw [hL.2 j] at hrh
      exact Bool.noConfusion hrh
    | readers hs =>
      simp only [hcl] at hL
      obtain ⟨hwr, hmem, hne⟩ := hL
      have hnotorn : c.file ≠ .torn := by
        intro ht
        rcases hT ht with ⟨i3, hi3⟩
        have h3 := hwr i3
        rw [hi3] at h3
        exact Bool.noConfusion h3
      unfold Inv
      dsimp only
      refine ⟨⟨hwr, ?_, hne⟩, hT, ?_⟩
      · intro j2
        by_cases hj : j2 = j
        · subst hj
          rw [Function.update_same]
          rw [← hmem j2, hrh]
          simp [ReaderPc.holds]
        · rw [Function.update_noteq hj]
          exact hmem j2
      · intro j2
        by_cases hj : j2 = j
        · subst hj
          rw [Function.update_same]
          intro hobs
          simp only [ReaderPc.observed] at hobs
          injection hobs with hobs
          exact hnotorn hobs
        · rw [Function.update_noteq hj]
          exact hO j2
  | rUnlock j hs obs hr hl =>
    simp only [hl] at hL
    obtain ⟨hwr, hmem, hne⟩ := hL
    have hjmem : j ∈ hs := by
      rw [← hmem j, hr]
      rfl
    unfold Inv
    dsimp only
    refine ⟨?_, hT, ?_⟩
    · by_cases hemp : hs.erase j = ∅
      · rw [if_pos hemp]
        refine ⟨hwr, ?_⟩
        intro j2
        by_cases hj : j2 = j
        · subst hj
          rw [Function.update_same]
          rfl
        · rw [Function.update_noteq hj]
          cases h2 : (c.readers j2).holds
          · rfl
          · exfalso
            have hin : j2 ∈ hs := (hmem j2).mp h2
            have hin2 : j2 ∈ hs.erase j := Finset.mem_erase_of_ne_of_mem hj hin
            rw [hemp] at hin2
            exact absurd hin2 (Finset.not_mem_empty j2)
      · rw [if_neg hemp]
        refine ⟨hwr, ?_, hemp⟩
        intro j2
        by_cases hj : j2 = j
        · subst hj
          rw [Function.update_same]
          constructor
          · intro hh
            exact absurd hh (by simp [ReaderPc.holds])
          · intro hh
            exact absurd hh (Finset.not_mem_erase j2 hs)
        · rw [Function.update_noteq hj]
          rw [hmem j2]
          constructor
          · intro hh
            exact Finset.mem_erase_of_ne_of_mem hj hh
          · intro hh
            exact (Finset.mem_erase.mp hh).2
    · intro j2
      by_cases hj : j2 = j
      · subst hj
        rw [Function.update_same]
        have hoj := hO j2
        rw [hr] at hoj
        exact hoj
      · rw [Function.update_noteq hj]
        exact hO j2

theorem inv_reachable (n m v0 : Nat) (c : Config n m) (h : Reachable n m v0 c) :
    Inv c := by
  induction h with
  | refl => exact inv_init n m v0
  | tail hsteps hstep ih => exact inv_step hstep ih

/-- C4: under the per-file reader/writer lock discipline (writes under the
exclusive write lock, reads under the read lock of the same lock), in
every reachable interleaving of the n writers and m readers no reader ever
records file bytes that fail to parse as JSON: a torn mid-write state is
never observed. -/
theorem C4_no_torn_reads (n m v0 : Nat) (c : Config n m)
    (h : Reachable n m v0 c) (j : Fin m) :
    (c.readers j).observed ≠ some .torn :=
  (inv_reachable n m v0 c h).2.2 j

theorem run7_reachable : Reachable 1 1 0 run7 := by
  have s1 : Step run0 run1 := Step.wLock run0 0 rfl rfl
  have s2 : Step run1 run2 := Step.wBegin run1 0 rfl
  have s3 : Step run2 run3 := Step.wFinish run2 0 5 rfl
  have s4 : Step run3 run4 := Step.wUnlock run3 0 rfl
  have s5 : Step run4 run5 := Step.rLockFree run4 0 rfl rfl
  have s6 : Step run5 run6 := Step.rRead run5 0 rfl
  have s7 : Step run6 run7 := Step.rUnlock run6 0 {0} (.whole 5) rfl rfl
  exact Relation.ReflTransGen.tail (Relation.ReflTransGen.tail
    (Relation.ReflTransGen.tail (Relation.ReflTransGen.tail
      (Relation.ReflTransGen.tail (Relation.ReflTransGen.tail
        (Relation.ReflTransGen.tail Relation.ReflTransGen.refl s1) s2) s3) s4) s5) s6) s7

/-- C4 witness: after a concrete writer run followed by a reader run, the
reader has recorded the complete document written, and the main theorem
rules out a torn observation for this reachable configuration. -/
theorem C4_witness :
    (run7.readers 0).observed = some (.whole 5) ∧
    (run7.readers 0).observed ≠ some .torn :=
  ⟨rfl, C4_no_torn_reads 1 1 0 run7 run7_reachable 0⟩

end lockmodel
